import Mathlib

/-!
Verification of the trading-journal core (trade lifecycle engine and
child-collection reconciler) against its natural-language specification.

The Python sources are shallowly embedded: pure helpers become Lean
functions, the SQLite tables become explicit list-valued fields of a `DB`
structure, and every persistence routine becomes a state transformer that
additionally returns the list of low-level operations (inserts / updates /
deletes / link changes) it issued.  Fallible routines return `Except`.
-/

namespace TradingJournal

/-! ## Python string primitives

Small kernel-computable models of the Python `str` operations used by the
sources (`str.strip`, `str.split(",")`, `", ".join`, `int(...)` on strings,
and the pervasive `(x or "")` / `... or None` idioms). -/

/-- Model of Python `str.strip()`: drop leading and trailing whitespace. -/
def pyStrip (s : String) : String :=
  ⟨((s.data.dropWhile Char.isWhitespace).reverse.dropWhile Char.isWhitespace).reverse⟩

/-- Auxiliary for `pySplitComma`: split a character list at every comma. -/
def splitCommaAux : List Char → List Char → List (List Char)
  | [], acc => [acc.reverse]
  | c :: rest, acc =>
      if c = ',' then acc.reverse :: splitCommaAux rest []
      else splitCommaAux rest (c :: acc)

/-- Model of Python `s.split(",")` (always returns at least one piece). -/
def pySplitComma (s : String) : List String :=
  (splitCommaAux s.data []).map (fun cs => ⟨cs⟩)

/-- Model of Python `", ".join(xs)`. -/
def joinCommaSpace : List String → String
  | [] => ""
  | [x] => x
  | x :: rest => x ++ ", " ++ joinCommaSpace rest

/-- Model of Python `x or ""` on an optional string (`None` becomes `""`,
an empty string stays empty). -/
def orEmpty : Option String → String
  | none => ""
  | some s => s

/-- Model of Python `s or None` after a strip: a blank string becomes
`None`, anything else is kept. -/
def optOfBlank (s : String) : Option String :=
  if s = "" then none else some s

/-- Digits of a decimal numeral to a natural number; `none` when the list is
empty or contains a non-digit. -/
def digitsToNat : List Char → Option Nat
  | [] => none
  | cs => cs.foldl (fun acc? c =>
      acc?.bind fun acc => if c.isDigit then some (acc * 10 + (c.toNat - 48)) else none)
      (some 0)

/-- Model of Python `int(s)` on a string: optional surrounding whitespace,
optional sign, decimal digits; `none` models the raised `ValueError`. -/
def pyIntOfString (s : String) : Option Int :=
  match (pyStrip s).data with
  | '-' :: rest => (digitsToNat rest).map (fun n => -(n : Int))
  | '+' :: rest => (digitsToNat rest).map (fun n => (n : Int))
  | cs => (digitsToNat cs).map (fun n => (n : Int))

/-! ## Trade states and form stages (`components/trade_manager/constants.py`) -/

/-- The five trade lifecycle states (`TRADE_STATE_VALUES` in `config.py`). -/
inductive TradeState where
  | openS
  | closedS
  | reviewedS
  | cancelledS
  | missedS
deriving DecidableEq, Repr, Fintype

/-- The three form-visibility stages. -/
inductive Stage where
  | openStage
  | closedStage
  | reviewStage
deriving DecidableEq, Repr, Fintype

open TradeState Stage

/-- Dictionary insertion order of `STATUS_TRANSITIONS` in the source. -/
def STATE_KEYS : List TradeState := [openS, closedS, reviewedS, cancelledS, missedS]

/-- `STATUS_TRANSITIONS` from `components/trade_manager/constants.py`
(identical to the copy in `config.py`). -/
def STATUS_TRANSITIONS : TradeState → List TradeState
  | openS => [openS, closedS, cancelledS]
  | closedS => [closedS, reviewedS]
  | reviewedS => [reviewedS]
  | cancelledS => [cancelledS, reviewedS]
  | missedS => [missedS, reviewedS]

/-- `STATUS_STAGE` from `components/trade_manager/constants.py`. -/
def STATUS_STAGE : TradeState → Stage
  | openS => openStage
  | closedS => closedStage
  | reviewedS => reviewStage
  | cancelledS => openStage
  | missedS => openStage

/-- `RESULT_PLACEHOLDER` from `components/trade_manager/constants.py`. -/
def RESULT_PLACEHOLDER : String := "— Not set —"

/-- `TRADE_RESULT_VALUES` from `config.py`. -/
def TRADE_RESULT_VALUES : List String := ["win", "loss", "be"]

/-- `EMOTIONAL_PROBLEMS` from `config.py`. -/
def EMOTIONAL_PROBLEMS : List String :=
  ["emotional management", "premature exit", "fear of entry"]

/-! ## `components/trade_manager/state.py` -/

/-- Order-preserving deduplicating append used by `allowed_statuses`. -/
def dedupAppend (acc : List TradeState) (x : TradeState) : List TradeState :=
  if x ∈ acc then acc else acc ++ [x]

/-- `allowed_statuses` from `components/trade_manager/state.py`: forward
transitions, then every state from which the current one is reachable,
then the current state itself, deduplicated in first-occurrence order.
(`STATUS_TRANSITIONS.get(current_state, ["open"])` never takes its default
because every state is a key, so the lookup is the total function above;
the final `ordered or ["open"]` fallback is kept.) -/
def allowed_statuses (current_state : TradeState) : List TradeState :=
  let forward := STATUS_TRANSITIONS current_state
  let backward := STATE_KEYS.filter (fun s => current_state ∈ STATUS_TRANSITIONS s)
  let ordered := (forward ++ backward ++ [current_state]).foldl dedupAppend []
  if ordered = [] then [openS] else ordered

/-- `visible_stages` from `components/trade_manager/state.py`. -/
def visible_stages (selected_state : TradeState) : List Stage :=
  match STATUS_STAGE selected_state with
  | openStage => [openStage]
  | closedStage => [openStage, closedStage]
  | reviewStage => [openStage, closedStage, reviewStage]

/-- Modelled from the spec: the forward-transition table of spec section
4.1 (open -> open, closed, cancelled, missed; closed -> closed, reviewed;
reviewed -> reviewed; cancelled -> cancelled; missed -> missed).  It is the
reference table claim C1 compares `allowed_statuses` against; it differs
from `STATUS_TRANSITIONS` in the source. -/
def specForwardTable : TradeState → List TradeState
  | openS => [openS, closedS, cancelledS, missedS]
  | closedS => [closedS, reviewedS]
  | reviewedS => [reviewedS]
  | cancelledS => [cancelledS]
  | missedS => [missedS]

/-! ## Relational state (`db.py`)

The SQLite tables that the reconciler touches become list-valued fields.
A table row is a pair of the integer primary key and a record of the
remaining columns (the `created_at` wall-clock columns are omitted: they
are filled from the current time and no claim examines them).
`nextNoteId` / `nextChartId` model the `AUTOINCREMENT` counters. -/

/-- A `notes` row: `title`, `body`, `tags` (all nullable TEXT columns). -/
structure NoteRec where
  title : Option String
  body : Option String
  tags : Option String
deriving DecidableEq, Repr

/-- A `charts` row: `chart_url` (NOT NULL) and nullable `description`. -/
structure ChartRec where
  chart_url : String
  description : Option String
deriving DecidableEq, Repr

/-- A dynamically-typed SQL / payload value (Python passes these around in
dicts).  A Python string holding a JSON-encoded list is represented in
parsed form by `vStrList`, matching the `json.loads` branch of
`_serialize_emotional_problems`. -/
inductive Value where
  | vNone
  | vInt (n : Int)
  | vRat (q : Rat)
  | vStr (s : String)
  | vStrList (xs : List String)
deriving DecidableEq, Repr

/-- The database state: the tables of `SCHEMA_SQL` used by the claims.  A
`trades` row is an association list over its column names because
`update_trade` assembles its `UPDATE` statement dynamically from payload
keys. -/
structure DB where
  notes : List (Nat × NoteRec)
  charts : List (Nat × ChartRec)
  trades : List (Nat × List (String × Value))
  tradeNotes : List (Nat × Nat)
  tradeCharts : List (Nat × Nat)
  analysisNotes : List (Nat × Nat)
  analysisCharts : List (Nat × Nat)
  setupCharts : List (Nat × Nat)
  noteCharts : List (Nat × Nat)
  nextNoteId : Nat
  nextChartId : Nat
deriving DecidableEq, Repr

/-- The low-level persistence operations a reconciliation run issues, used
to state the no-op / idempotence claims.  `updateNote` records the stored
row (`old`) next to the written one (`new`) so that an update writing
identical values is recognisable. -/
inductive Op where
  | insertNote (id : Nat)
  | updateNote (id : Nat) (old : Option NoteRec) (new : NoteRec)
  | linkNote (trade_id note_id : Nat)
  | unlinkNote (trade_id note_id : Nat)
  | deleteNote (id : Nat)
  | insertChart (id : Nat)
  | linkChart (trade_id chart_id : Nat)
  | unlinkChart (trade_id chart_id : Nat)
  | deleteChartRow (id : Nat)
deriving DecidableEq, Repr

/-- First `notes` row with the given id (SQL `SELECT * FROM notes WHERE id=?`). -/
def lookupNote (db : DB) (nid : Nat) : Option NoteRec :=
  (db.notes.find? (fun p => p.1 = nid)).map (·.2)

/-- `add_note` from `db.py`: insert a row with the next id. -/
def add_note (db : DB) (title : Option String) (body : String)
    (tags : Option String) : Nat × DB :=
  let nid := db.nextNoteId
  (nid, { db with notes := db.notes ++ [(nid, ⟨title, some body, tags⟩)],
                  nextNoteId := nid + 1 })

/-- `update_note` from `db.py`: overwrite `title`, `body`, `tags`; a zero
row count (unknown id) raises. -/
def update_note (db : DB) (nid : Nat) (title : Option String) (body : String)
    (tags : Option String) : Except String DB :=
  if db.notes.any (fun p => p.1 = nid) then
    .ok { db with notes := db.notes.map (fun p =>
      if p.1 = nid then (nid, ⟨title, some body, tags⟩) else p) }
  else .error "note not found"

/-- `delete_note` from `db.py`: unconditional `DELETE FROM notes WHERE id=?`;
the foreign keys of `trade_notes`, `analysis_notes` and `note_charts`
cascade. -/
def delete_note (db : DB) (nid : Nat) : DB :=
  { db with notes := db.notes.filter (fun p => p.1 ≠ nid),
            tradeNotes := db.tradeNotes.filter (fun l => l.2 ≠ nid),
            analysisNotes := db.analysisNotes.filter (fun l => l.2 ≠ nid),
            noteCharts := db.noteCharts.filter (fun l => l.1 ≠ nid) }

/-- `link_note_to_trade` from `db.py` (`INSERT OR IGNORE`). -/
def link_note_to_trade (db : DB) (tid nid : Nat) : DB :=
  if (tid, nid) ∈ db.tradeNotes then db
  else { db with tradeNotes := db.tradeNotes ++ [(tid, nid)] }

/-- `unlink_note_from_trade` from `db.py`. -/
def unlink_note_from_trade (db : DB) (tid nid : Nat) : DB :=
  { db with tradeNotes := db.tradeNotes.filter (fun l => l ≠ (tid, nid)) }

/-- `list_notes_for_trade` from `db.py`: the notes joined through
`trade_notes`, in id order (`db.notes` is kept in insertion = id order). -/
def list_notes_for_trade (db : DB) (tid : Nat) : List (Nat × NoteRec) :=
  db.notes.filter (fun p => (tid, p.1) ∈ db.tradeNotes)

/-- `add_chart` from `db.py`: raises when `chart_url` is falsy, otherwise
inserts a row with the next id. -/
def add_chart (db : DB) (chart_url : String) (description : Option String) :
    Except String (Nat × DB) :=
  if chart_url = "" then .error "chart_url is required."
  else
    let cid := db.nextChartId
    .ok (cid, { db with charts := db.charts ++ [(cid, ⟨chart_url, description⟩)],
                        nextChartId := cid + 1 })

/-- `link_chart_to_trade` from `db.py` (`INSERT OR IGNORE`). -/
def link_chart_to_trade (db : DB) (tid cid : Nat) : DB :=
  if (tid, cid) ∈ db.tradeCharts then db
  else { db with tradeCharts := db.tradeCharts ++ [(tid, cid)] }

/-- `unlink_chart_from_trade` from `db.py`. -/
def unlink_chart_from_trade (db : DB) (tid cid : Nat) : DB :=
  { db with tradeCharts := db.tradeCharts.filter (fun l => l ≠ (tid, cid)) }

/-- `list_charts_for_trade` from `db.py`. -/
def list_charts_for_trade (db : DB) (tid : Nat) : List (Nat × ChartRec) :=
  db.charts.filter (fun p => (tid, p.1) ∈ db.tradeCharts)

/-- The reference count `delete_chart_if_unused` computes: links in
`trade_charts` plus links in `analysis_charts` only (`setup_charts` and
`note_charts` are not consulted). -/
def chartRefCount (db : DB) (cid : Nat) : Nat :=
  (db.tradeCharts.filter (fun l => l.2 = cid)).length +
    (db.analysisCharts.filter (fun l => l.2 = cid)).length

/-- `delete_chart_if_unused` from `db.py`: when the `trade_charts` +
`analysis_charts` count is zero, delete the chart row (every junction
table cascades on the chart's foreign key). -/
def delete_chart_if_unused (db : DB) (cid : Nat) : DB :=
  if chartRefCount db cid = 0 then
    { db with charts := db.charts.filter (fun p => p.1 ≠ cid),
              tradeCharts := db.tradeCharts.filter (fun l => l.2 ≠ cid),
              analysisCharts := db.analysisCharts.filter (fun l => l.2 ≠ cid),
              setupCharts := db.setupCharts.filter (fun l => l.2 ≠ cid),
              noteCharts := db.noteCharts.filter (fun l => l.2 ≠ cid) }
  else db

/-! ## Proposed child rows and the reconciler entry points -/

/-- The raw `id` cell of a proposed editor row: Python `None`, a number, or
a string. -/
inductive RawId where
  | null
  | intVal (n : Int)
  | strVal (s : String)
deriving DecidableEq, Repr

/-- The id-parsing of `replace_trade_notes` (`int(raw_id) if raw_id is not
None and raw_id != "" else None`, with `TypeError` / `ValueError` mapped to
`None`); `_prepare_note_records` reaches the same function through a bare
`int(raw_id)` whose exceptions are also mapped to `None`. -/
def pyIntOfRaw : RawId → Option Int
  | .null => none
  | .intVal n => some n
  | .strVal s => if s = "" then none else pyIntOfString s

/-- A proposed note row (the dict handed to `replace_trade_notes`). -/
structure NoteRow where
  id : RawId
  title : Option String
  body : Option String
  tags : Option String
deriving DecidableEq, Repr

/-- A proposed chart row (the dict handed to `replace_trade_charts`). -/
structure ChartRow where
  chart_url : Option String
  description : Option String
deriving DecidableEq, Repr

/-- The per-row loop of `replace_trade_notes`: rows with a blank body are
dropped; a row whose parsed id is truthy and a key of `existing_notes`
updates (and re-links) that note; every other row inserts a new note and
links it.  Returns the final state, the `kept_ids` list and the issued
operations. -/
def processNoteRows (tid : Nat) (existingIds : List Nat) :
    DB → List NoteRow → Except String (DB × List Int × List Op)
  | db, [] => .ok (db, [], [])
  | db, row :: rest =>
      let body := pyStrip (orEmpty row.body)
      let title := optOfBlank (pyStrip (orEmpty row.title))
      let tags := optOfBlank (pyStrip (orEmpty row.tags))
      if body = "" then processNoteRows tid existingIds db rest
      else
        match pyIntOfRaw row.id with
        | some n =>
            if n ≠ 0 ∧ n ∈ existingIds.map Int.ofNat then do
              let old := lookupNote db n.toNat
              let db1 ← update_note db n.toNat title body tags
              let db2 := link_note_to_trade db1 tid n.toNat
              let (db3, kept, ops) ← processNoteRows tid existingIds db2 rest
              .ok (db3, n :: kept,
                .updateNote n.toNat old ⟨title, some body, tags⟩ ::
                  .linkNote tid n.toNat :: ops)
            else do
              let (newId, db1) := add_note db title body tags
              let db2 := link_note_to_trade db1 tid newId
              let (db3, kept, ops) ← processNoteRows tid existingIds db2 rest
              .ok (db3, Int.ofNat newId :: kept,
                .insertNote newId :: .linkNote tid newId :: ops)
        | none => do
            let (newId, db1) := add_note db title body tags
            let db2 := link_note_to_trade db1 tid newId
            let (db3, kept, ops) ← processNoteRows tid existingIds db2 rest
            .ok (db3, Int.ofNat newId :: kept,
              .insertNote newId :: .linkNote tid newId :: ops)

/-- The trailing garbage-collection loop of `replace_trade_notes`: every
previously-attached note whose id was not kept is unlinked and then
unconditionally deleted. -/
def deleteNotesLoop (tid : Nat) : DB → List Nat → DB × List Op
  | db, [] => (db, [])
  | db, nid :: rest =>
      let db1 := delete_note (unlink_note_from_trade db tid nid) nid
      let r := deleteNotesLoop tid db1 rest
      (r.1, .unlinkNote tid nid :: .deleteNote nid :: r.2)

/-- `replace_trade_notes` from `db.py`. -/
def replace_trade_notes (db : DB) (tid : Nat) (rows : List NoteRow) :
    Except String (DB × List Op) := do
  let existingIds := (list_notes_for_trade db tid).map Prod.fst
  let (db1, kept, ops1) ← processNoteRows tid existingIds db rows
  let toDelete := existingIds.filter (fun (nid : Nat) => Int.ofNat nid ∉ kept)
  let (db2, ops2) := deleteNotesLoop tid db1 toDelete
  .ok (db2, ops1 ++ ops2)

/-- The first loop of `replace_trade_charts`: unlink every currently
attached chart and garbage-collect it via `delete_chart_if_unused`. -/
def chartGcLoop (tid : Nat) : DB → List Nat → DB × List Op
  | db, [] => (db, [])
  | db, cid :: rest =>
      let db1 := unlink_chart_from_trade db tid cid
      let deleted := chartRefCount db1 cid = 0
      let db2 := delete_chart_if_unused db1 cid
      let (db3, ops) := chartGcLoop tid db2 rest
      (db3, .unlinkChart tid cid ::
        (if deleted then [Op.deleteChartRow cid] else []) ++ ops)

/-- The second loop of `replace_trade_charts`: every proposed row with a
non-blank url becomes a brand-new chart linked to the trade. -/
def insertChartsLoop (tid : Nat) : DB → List ChartRow →
    Except String (DB × List Op)
  | db, [] => .ok (db, [])
  | db, row :: rest =>
      let url := pyStrip (orEmpty row.chart_url)
      if url = "" then insertChartsLoop tid db rest
      else do
        let (cid, db1) ← add_chart db url row.description
        let db2 := link_chart_to_trade db1 tid cid
        let (db3, ops) ← insertChartsLoop tid db2 rest
        .ok (db3, .insertChart cid :: .linkChart tid cid :: ops)

/-- `replace_trade_charts` from `db.py`: unlink and garbage-collect all
existing charts, then insert every non-blank proposed row as a new chart. -/
def replace_trade_charts (db : DB) (tid : Nat) (rows : List ChartRow) :
    Except String (DB × List Op) := do
  let existing := (list_charts_for_trade db tid).map Prod.fst
  let (db1, ops1) := chartGcLoop tid db existing
  let (db2, ops2) ← insertChartsLoop tid db1 rows
  .ok (db2, ops1 ++ ops2)

/-! ## Tag serialization (`components/trade_manager/notes.py`) -/

/-- The value `split_tags` / `serialize_tags` receive: Python `None` (or a
pandas missing value), a flat string (the persisted representation), or the
editor's list of tags (whose entries can themselves be `None`). -/
inductive TagsVal where
  | null
  | str (s : String)
  | list (xs : List (Option String))
deriving DecidableEq, Repr

/-- `split_tags` from `components/trade_manager/notes.py`: a list is
normalised entry-wise (skip `None`, strip, drop blanks); `None` yields `[]`;
any other value is stringified and split on commas, each piece stripped and
blanks dropped. -/
def split_tags : TagsVal → List String
  | .null => []
  | .str s => ((pySplitComma s).map pyStrip).filter (fun t => t ≠ "")
  | .list xs => xs.filterMap (fun t? => t?.bind (fun t => optOfBlank (pyStrip t)))

/-- `serialize_tags` from `components/trade_manager/notes.py`: a list is
normalised entry-wise and joined with `", "` (`or None` turns the empty
join into `None`); `None` stays `None`; any other value is stripped
(`or None` again). -/
def serialize_tags : TagsVal → Option String
  | .null => none
  | .str s => optOfBlank (pyStrip s)
  | .list xs =>
      let normalized := xs.filterMap (fun t? => t?.bind (fun t => optOfBlank (pyStrip t)))
      optOfBlank (joinCommaSpace normalized)

/-- Reading the persisted `tags` column back: SQL `NULL` is Python `None`. -/
def persistedTags : Option String → TagsVal
  | none => .null
  | some s => .str s

/-- The serialize-then-deserialize round trip on an editor tag list. -/
def tagsRoundTrip (xs : List (Option String)) : List String :=
  split_tags (persistedTags (serialize_tags (.list xs)))

/-- The entry-wise normalisation shared by `serialize_tags` and
`split_tags` on lists: skip `None`, strip, drop blanks. -/
def normalizedTagList (xs : List (Option String)) : List String :=
  xs.filterMap (fun t? => t?.bind (fun t => optOfBlank (pyStrip t)))

/-! ## Trade payload normalisation and `update_trade` (`db.py`) -/

/-- `WRITABLE_TRADE_FIELDS` from `db.py` (in source order). -/
def WRITABLE_TRADE_FIELDS : List String :=
  ["local_tz", "date_local", "time_local", "account_id", "setup_id",
   "analysis_id", "asset", "risk_pct", "session", "state", "result",
   "net_pnl", "risk_reward", "reward_percent", "estimation",
   "emotional_problems", "hot_thoughts", "cold_thoughts"]

/-- The columns of the `trades` table as created by `SCHEMA_SQL` in `db.py`
(`_run_migrations` adds nothing further: `estimation` and
`emotional_problems` are already present). -/
def tradesTableColumns : List String :=
  ["id", "local_tz", "date_local", "time_local", "account_id", "setup_id",
   "analysis_id", "asset", "session", "state", "result", "net_pnl",
   "risk_pct", "risk_reward", "reward_percent", "estimation",
   "emotional_problems", "hot_thoughts", "cold_thoughts"]

/-- The columns `close_trade`'s `UPDATE trades SET ...` statement assigns
(`db.py`, lines 890-898). -/
def close_trade_update_columns : List String :=
  ["state", "closed_at_utc", "result", "net_pnl", "risk_reward", "reward_percent"]

/-- `_serialize_emotional_problems` from `db.py`: `None` stays `None`,
a list is filtered against the `EMOTIONAL_PROBLEMS` vocabulary and kept
only when non-empty (persisted as a JSON list, represented by `vStrList`);
a string is stripped, then comma-split and filtered the same way (a string
holding a JSON-encoded list is represented in parsed form by `vStrList`,
which the `json.loads` branch filters identically); any other value maps
to `None`. -/
def serialize_emotional_problems : Value → Value
  | .vNone => .vNone
  | .vStrList xs =>
      let selection := xs.filter (fun x => x ∈ EMOTIONAL_PROBLEMS)
      if selection = [] then .vNone else .vStrList selection
  | .vStr s =>
      if pyStrip s = "" then .vNone
      else
        let selection := ((pySplitComma s).map pyStrip).filter
          (fun x => x ∈ EMOTIONAL_PROBLEMS)
        if selection = [] then .vNone else .vStrList selection
  | _ => .vNone

/-- Python `int(value)` on a payload value (used for `estimation`): ints
pass through, floats truncate toward zero, strings parse or raise, lists
raise.  The `Except` error models the raised `ValueError` (the source
message is Russian; an ASCII translation is used here). -/
def pyIntCoerce : Value → Except String Int
  | .vInt n => .ok n
  | .vRat q => .ok (if 0 ≤ q then ⌊q⌋ else ⌈q⌉)
  | .vStr s =>
      match pyIntOfString s with
      | some n => .ok n
      | none => .error "estimation must be an integer"
  | _ => .error "estimation must be an integer"

/-- The per-key step of `_normalize_trade_payload`: `estimation` is
int-coerced unless `None`, `emotional_problems` is serialized, everything
else passes through. -/
def normalize_field (k : String) (v : Value) : Except String Value :=
  if k = "estimation" then
    match v with
    | .vNone => .ok .vNone
    | _ => (pyIntCoerce v).map .vInt
  else if k = "emotional_problems" then .ok (serialize_emotional_problems v)
  else .ok v

/-- Python `data[k]` presence lookup on a payload dict. -/
def lookupKey (data : List (String × Value)) (k : String) : Option Value :=
  (data.find? (fun p => p.1 = k)).map (·.2)

/-- `_normalize_trade_payload` from `db.py`: keep exactly the
`WRITABLE_TRADE_FIELDS` keys present in the input, in field order,
normalising `estimation` and `emotional_problems`. -/
def normalize_trade_payload (data : List (String × Value)) :
    Except String (List (String × Value)) :=
  WRITABLE_TRADE_FIELDS.foldlM (fun acc k =>
    match lookupKey data k with
    | none => .ok acc
    | some v => (normalize_field k v).map (fun v' => acc ++ [(k, v')])) []

/-- One `SET col=?` assignment of the dynamic `UPDATE trades` statement. -/
def setColumn (row : List (String × Value)) (k : String) (v : Value) :
    List (String × Value) :=
  row.map (fun p => if p.1 = k then (k, v) else p)

/-- `update_trade` from `db.py`: normalise, return silently on an empty
payload, otherwise `UPDATE trades SET ... WHERE id=?` and raise on a zero
row count (the source message is Russian; an ASCII translation is used
here). -/
def update_trade (db : DB) (tid : Nat) (data : List (String × Value)) :
    Except String DB := do
  let payload ← normalize_trade_payload data
  if payload = [] then .ok db
  else if db.trades.any (fun p => p.1 = tid) then
    .ok { db with trades := db.trades.map (fun p =>
      if p.1 = tid then
        (tid, payload.foldl (fun r kv => setColumn r kv.1 kv.2) p.2)
      else p) }
  else .error "trade not found"

/-! ## The submit path of `components/trade_manager/manager.py`

The widget layer is resolved to its produced values: the open-stage
widgets yield an `OpenValues` record (selectbox labels resolved to the ids
the payload looks up), the After-close expander yields a `ClosedInputs`
record plus the emotional-problems multiselect list, the review expander a
`ReviewInputs` record.  `float(...)` coercions on widget numbers are the
identity here. -/

/-- The open-stage widget values (`render_open_stage`), with the
account / analysis / setup selectbox labels already resolved to the ids
`payload` looks up in its dictionaries. -/
structure OpenValues where
  date_iso : String
  time_str : String
  account_id : Option Nat
  asset : String
  analysis_id : Option Nat
  setup_id : Option Nat
  risk_pct : Rat
deriving DecidableEq, Repr

/-- The After-close widget values (`render_closed_stage`).  `net_pnl` is
optional because the submit handler explicitly checks it against `None`. -/
structure ClosedInputs where
  result : String
  net_pnl : Option Rat
  risk_reward : Rat
  reward_percent : Rat
  hot_thoughts : String
deriving DecidableEq, Repr

/-- The review widget values (`render_review_stage`): the text area and the
thumbs feedback (already normalised by the section to `0`, `1`, or `None`). -/
structure ReviewInputs where
  cold_thoughts : String
  estimation : Option Int
deriving DecidableEq, Repr

/-- The fields of the edited trade row that the payload builder falls back
to when the review block is hidden. -/
structure TradeCtx where
  cold_thoughts : Option String
  estimation : Option Int
deriving DecidableEq, Repr

/-- The payload dict assembled by `render_trade_manager` (lines 194-235). -/
structure Payload where
  date_local : String
  time_local : String
  account_id : Option Nat
  asset : String
  analysis_id : Option Nat
  setup_id : Option Nat
  risk_pct : Rat
  state : TradeState
  result : Option String
  net_pnl : Option Rat
  risk_reward : Option Rat
  reward_percent : Option Rat
  hot_thoughts : Option String
  emotional_problems : Option (List String)
  cold_thoughts : Option String
  estimation : Option Int
deriving DecidableEq, Repr

/-- The submit validation of `render_trade_manager` (lines 180-188): a
target in the closed / review tier requires the After-close block, a
concrete result and a present Net PnL; every violated rule appends its own
message. -/
def validateSubmit (selected : TradeState) (ci? : Option ClosedInputs) :
    List String :=
  if selected = closedS ∨ selected = reviewedS then
    match ci? with
    | none => ["Fill in the “After close” block."]
    | some ci =>
        (if ci.result = RESULT_PLACEHOLDER then ["Select the trade result."] else []) ++
          (if ci.net_pnl = none then ["Provide Net PnL."] else [])
  else []

/-- The payload assembly of `render_trade_manager` (lines 194-235). -/
def buildUpdatePayload (selected : TradeState) (ov : OpenValues)
    (ci? : Option ClosedInputs) (emotions : List String)
    (ri? : Option ReviewInputs) (trade : TradeCtx) : Payload :=
  let base : Payload :=
    { date_local := ov.date_iso, time_local := ov.time_str,
      account_id := ov.account_id, asset := ov.asset,
      analysis_id := ov.analysis_id, setup_id := ov.setup_id,
      risk_pct := ov.risk_pct, state := selected,
      result := none, net_pnl := none, risk_reward := none,
      reward_percent := none, hot_thoughts := none,
      emotional_problems := none, cold_thoughts := none, estimation := none }
  let withClosed :=
    match ci? with
    | some ci =>
        { base with
            result := if ci.result = RESULT_PLACEHOLDER then none else some ci.result,
            net_pnl := ci.net_pnl,
            risk_reward := some ci.risk_reward,
            reward_percent := some ci.reward_percent,
            hot_thoughts := optOfBlank (pyStrip ci.hot_thoughts),
            emotional_problems := if emotions = [] then none else some emotions }
    | none =>
        { base with
            result := none, net_pnl := none, risk_reward := none,
            reward_percent := none, hot_thoughts := none,
            emotional_problems := none }
  match ri? with
  | some ri =>
      { withClosed with
          cold_thoughts := optOfBlank (pyStrip ri.cold_thoughts),
          estimation :=
            if ri.estimation = some 0 ∨ ri.estimation = some 1 then ri.estimation
            else none }
  | none =>
      { withClosed with
          cold_thoughts :=
            if selected ≠ reviewedS then none else trade.cold_thoughts,
          estimation :=
            if selected = reviewedS ∧
                (trade.estimation = some 0 ∨ trade.estimation = some 1) then
              trade.estimation
            else none }

/-- The submit path of `render_trade_manager` for an existing trade: the
After-close and review blocks are rendered (and their inputs collected)
exactly when `visible_stages` shows them; validation errors abort before
any persistence call; otherwise the payload is assembled. -/
def submit_trade_update (selected : TradeState) (ov : OpenValues)
    (closedWidget : ClosedInputs) (emotionsWidget : List String)
    (reviewWidget : ReviewInputs) (trade : TradeCtx) :
    Except (List String) Payload :=
  let stages := visible_stages selected
  let ci? := if closedStage ∈ stages then some closedWidget else none
  let ri? := if reviewStage ∈ stages then some reviewWidget else none
  let errors := validateSubmit selected ci?
  if errors = [] then
    .ok (buildUpdatePayload selected ov ci? emotionsWidget ri? trade)
  else .error errors

/-- The keys of the assembled payload dict as a data list (the shape
`update_trade` receives). -/
def payloadToData (p : Payload) : List (String × Value) :=
  [("date_local", .vStr p.date_local), ("time_local", .vStr p.time_local),
   ("account_id", match p.account_id with | none => .vNone | some n => .vInt n),
   ("asset", .vStr p.asset),
   ("analysis_id", match p.analysis_id with | none => .vNone | some n => .vInt n),
   ("setup_id", match p.setup_id with | none => .vNone | some n => .vInt n),
   ("risk_pct", .vRat p.risk_pct),
   ("state", .vStr (match p.state with
     | openS => "open" | closedS => "closed" | reviewedS => "reviewed"
     | cancelledS => "cancelled" | missedS => "missed")),
   ("result", match p.result with | none => .vNone | some s => .vStr s),
   ("net_pnl", match p.net_pnl with | none => .vNone | some q => .vRat q),
   ("risk_reward", match p.risk_reward with | none => .vNone | some q => .vRat q),
   ("reward_percent", match p.reward_percent with | none => .vNone | some q => .vRat q),
   ("hot_thoughts", match p.hot_thoughts with | none => .vNone | some s => .vStr s),
   ("emotional_problems", match p.emotional_problems with
     | none => .vNone | some xs => .vStrList xs),
   ("cold_thoughts", match p.cold_thoughts with | none => .vNone | some s => .vStr s),
   ("estimation", match p.estimation with | none => .vNone | some n => .vInt n)]

/-! ## Derived notions used by the reconciler theorems -/

/-- The primary keys of the `notes` table. -/
def noteKeys (db : DB) : List Nat := db.notes.map Prod.fst

/-- A persisted note re-presented as a proposed editor row carrying its own
id and stored field values (the shape `existingNotesAsProposedRows` of the
round-trip property). -/
def noteRowOf (p : Nat × NoteRec) : NoteRow :=
  ⟨.intVal (Int.ofNat p.1), p.2.title, p.2.body, p.2.tags⟩

/-- An optional text field in normalised form: absent, or stripped and
non-blank (what `replace_trade_notes` itself writes). -/
def NormalizedStr (o : Option String) : Prop :=
  ∀ t, o = some t → pyStrip t = t ∧ t ≠ ""

/-- A note row in the normalised form `replace_trade_notes` persists:
a stripped non-blank body, and title / tags either absent or stripped and
non-blank. -/
def NormalizedNoteRec (r : NoteRec) : Prop :=
  (∃ b, r.body = some b ∧ pyStrip b = b ∧ b ≠ "") ∧
    NormalizedStr r.title ∧ NormalizedStr r.tags

/-- Recogniser for note-insert operations. -/
def isInsertNoteOp : Op → Bool
  | .insertNote _ => true
  | _ => false

/-- Recogniser for note-delete operations. -/
def isDeleteNoteOp : Op → Bool
  | .deleteNote _ => true
  | _ => false

/-- Whether `replace_trade_notes` treats a proposed row as a new insert:
a non-blank body whose id fails the parse-and-membership check (the exact
branch structure of the source loop). -/
def noteInsertRowB (existingIds : List Nat) (row : NoteRow) : Bool :=
  if pyStrip (orEmpty row.body) = "" then false
  else
    match pyIntOfRaw row.id with
    | some n => if n ≠ 0 ∧ n ∈ existingIds.map Int.ofNat then false else true
    | none => true

/-- The parsed ids of the proposed rows that pass the update-target check
(non-blank body, id parses, is truthy and belongs to the owner's existing
children). -/
def noteUpdateTargets (existingIds : List Nat) (rows : List NoteRow) : List Int :=
  rows.filterMap (fun row =>
    if pyStrip (orEmpty row.body) = "" then none
    else
      match pyIntOfRaw row.id with
      | some n => if n ≠ 0 ∧ n ∈ existingIds.map Int.ofNat then some n else none
      | none => none)

/-! ## Concrete states used by the counterexamples and witnesses -/

/-- A database holding one chart (id 1, url "a") attached solely to trade 1. -/
def exampleChartDB : DB :=
  { notes := [], charts := [(1, ⟨"a", none⟩)], trades := [],
    tradeNotes := [], tradeCharts := [(1, 1)],
    analysisNotes := [], analysisCharts := [],
    setupCharts := [], noteCharts := [],
    nextNoteId := 1, nextChartId := 2 }

/-- A database holding one note (id 1) attached to trade 1 and also linked
to analysis 7 through `analysis_notes`. -/
def exampleSharedNoteDB : DB :=
  { notes := [(1, ⟨none, some "hello", none⟩)], charts := [], trades := [],
    tradeNotes := [(1, 1)], tradeCharts := [],
    analysisNotes := [(7, 1)], analysisCharts := [],
    setupCharts := [], noteCharts := [],
    nextNoteId := 2, nextChartId := 1 }

/-- A database holding note 1 (attached to trade 1) and note 2 (attached
only to trade 9): note 2 is a foreign child from trade 1's viewpoint. -/
def exampleTwoOwnerDB : DB :=
  { notes := [(1, ⟨none, some "mine", none⟩), (2, ⟨none, some "theirs", none⟩)],
    charts := [], trades := [],
    tradeNotes := [(1, 1), (9, 2)], tradeCharts := [],
    analysisNotes := [], analysisCharts := [],
    setupCharts := [], noteCharts := [],
    nextNoteId := 3, nextChartId := 1 }

/-- The proposed editor row carrying note 2's id while editing trade 1
(an identity-spoofing attempt), plus a fresh row without an id. -/
def exampleSpoofRows : List NoteRow :=
  [⟨.intVal 2, none, some "spoofed body", none⟩]

/-- One trade row (id 1) with the schema's columns, used by the
`update_trade` witnesses. -/
def exampleTradeDB : DB :=
  { notes := [], charts := [],
    trades := [(1, [("state", .vStr "open"), ("asset", .vStr "EUR/USD")])],
    tradeNotes := [], tradeCharts := [],
    analysisNotes := [], analysisCharts := [],
    setupCharts := [], noteCharts := [],
    nextNoteId := 1, nextChartId := 1 }

end TradingJournal

namespace TradingJournal

open TradeState Stage

/-- Helper: the abbreviation for `_normalize_trade_payload`'s fold step. -/
def normalizeStep (data : List (String × Value))
    (acc : List (String × Value)) (k : String) :
    Except String (List (String × Value)) :=
  match lookupKey data k with
  | none => .ok acc
  | some v => (normalize_field k v).map (fun v' => acc ++ [(k, v')])

theorem normalize_trade_payload_eq_foldlM (data : List (String × Value)) :
    normalize_trade_payload data =
      WRITABLE_TRADE_FIELDS.foldlM (normalizeStep data) [] := rfl

/-- Helper: the fold step when the key is absent from the data. -/
theorem normalizeStep_none (data : List (String × Value))
    (acc : List (String × Value)) (k : String)
    (hlk : lookupKey data k = none) :
    normalizeStep data acc k = .ok acc := by
  unfold normalizeStep
  rw [hlk]

/-- Helper: the fold step when the key is present and normalises cleanly. -/
theorem normalizeStep_some_ok (data : List (String × Value))
    (acc : List (String × Value)) (k : String) (v v' : Value)
    (hlk : lookupKey data k = some v) (hnf : normalize_field k v = .ok v') :
    normalizeStep data acc k = .ok (acc ++ [(k, v')]) := by
  unfold normalizeStep
  rw [hlk]
  show Except.map (fun v' => acc ++ [(k, v')]) (normalize_field k v) = _
  rw [hnf]
  rfl

/-- Helper: the fold step when the key is present but fails to normalise. -/
theorem normalizeStep_some_error (data : List (String × Value))
    (acc : List (String × Value)) (k : String) (v : Value) (e : String)
    (hlk : lookupKey data k = some v) (hnf : normalize_field k v = .error e) :
    normalizeStep data acc k = .error e := by
  unfold normalizeStep
  rw [hlk]
  show Except.map (fun v' => acc ++ [(k, v')]) (normalize_field k v) = _
  rw [hnf]
  rfl

/-- Helper: every key of a successful fold result comes from the starting
accumulator or from the key list. -/
theorem foldlM_normalizeStep_keys (data : List (String × Value)) :
    ∀ (ks : List String) (acc out : List (String × Value)),
      ks.foldlM (normalizeStep data) acc = .ok out →
      ∀ x ∈ out.map Prod.fst, x ∈ acc.map Prod.fst ∨ x ∈ ks := by
  intro ks
  induction ks with
  | nil =>
      intro acc out hout x hx
      rw [List.foldlM_nil] at hout
      injection hout with hout
      subst hout
      exact Or.inl hx
  | cons k ks ih =>
      intro acc out hout x hx
      rw [List.foldlM_cons] at hout
      cases hlk : lookupKey data k with
      | none =>
          rw [normalizeStep_none data acc k hlk] at hout
          replace hout : ks.foldlM (normalizeStep data) acc = .ok out := by
            simpa using hout
          rcases ih acc out hout x hx with h | h
          · exact Or.inl h
          · exact Or.inr (List.mem_cons_of_mem _ h)
      | some v =>
          cases hnf : normalize_field k v with
          | error e =>
              rw [normalizeStep_some_error data acc k v e hlk hnf] at hout
              simp [Bind.bind, Except.bind] at hout
          | ok v' =>
              rw [normalizeStep_some_ok data acc k v v' hlk hnf] at hout
              replace hout : ks.foldlM (normalizeStep data) (acc ++ [(k, v')]) = .ok out := by
                simpa using hout
              rcases ih (acc ++ [(k, v')]) out hout x hx with h | h
              · rw [List.map_append, List.mem_append] at h
                rcases h with h | h
                · exact Or.inl h
                · simp at h
                  exact Or.inr (by simp [h])
              · exact Or.inr (List.mem_cons_of_mem _ h)

/-- Helper: keys of a normalised payload are writable fields. -/
theorem normalize_keys_writable (data out : List (String × Value))
    (hout : normalize_trade_payload data = .ok out) :
    ∀ x ∈ out.map Prod.fst, x ∈ WRITABLE_TRADE_FIELDS := by
  intro x hx
  rw [normalize_trade_payload_eq_foldlM] at hout
  rcases foldlM_normalizeStep_keys data WRITABLE_TRADE_FIELDS [] out hout x hx with h | h
  · simp at h
  · exact h

/-- Helper: a successful fold keeps a non-empty accumulator non-empty, and
any key of the list found in `data` forces a non-empty result. -/
theorem foldlM_normalizeStep_nonempty (data : List (String × Value)) :
    ∀ (ks : List String) (acc out : List (String × Value)),
      ks.foldlM (normalizeStep data) acc = .ok out →
      (acc ≠ [] → out ≠ []) ∧
      (∀ k ∈ ks, lookupKey data k ≠ none → out ≠ []) := by
  intro ks
  induction ks with
  | nil =>
      intro acc out hout
      rw [List.foldlM_nil] at hout
      injection hout with hout
      subst hout
      exact ⟨fun h => h, by simp⟩
  | cons k ks ih =>
      intro acc out hout
      rw [List.foldlM_cons] at hout
      cases hlk : lookupKey data k with
      | none =>
          rw [normalizeStep_none data acc k hlk] at hout
          replace hout : ks.foldlM (normalizeStep data) acc = .ok out := by
            simpa using hout
          refine ⟨(ih acc out hout).1, ?_⟩
          intro k' hk' hsome
          rcases List.mem_cons.mp hk' with rfl | hk'
          · exact absurd hlk hsome
          · exact (ih acc out hout).2 k' hk' hsome
      | some v =>
          cases hnf : normalize_field k v with
          | error e =>
              rw [normalizeStep_some_error data acc k v e hlk hnf] at hout
              simp [Bind.bind, Except.bind] at hout
          | ok v' =>
              rw [normalizeStep_some_ok data acc k v v' hlk hnf] at hout
              replace hout : ks.foldlM (normalizeStep data) (acc ++ [(k, v')]) = .ok out := by
                simpa using hout
              have hne : (acc ++ [(k, v')]) ≠ [] := by simp
              have hkeep := (ih (acc ++ [(k, v')]) out hout).1 hne
              exact ⟨fun _ => hkeep, fun _ _ _ => hkeep⟩

/-- Helper: when no key of the list occurs in the data, the fold returns
its accumulator unchanged. -/
theorem foldlM_normalizeStep_all_none (data : List (String × Value)) :
    ∀ (ks : List String) (acc : List (String × Value)),
      (∀ k ∈ ks, lookupKey data k = none) →
      ks.foldlM (normalizeStep data) acc = .ok acc := by
  intro ks
  induction ks with
  | nil => intro acc _; rfl
  | cons k ks ih =>
      intro acc hnone
      rw [List.foldlM_cons,
        normalizeStep_none data acc k (hnone k (List.mem_cons_self k ks))]
      have := ih acc (fun k' hk' => hnone k' (List.mem_cons_of_mem _ hk'))
      simpa using this

/-- C1 (counterexample): the claim fails at the concrete pair
(currentState, targetState) = (open, missed): per the spec table of
section 4.1, `missed` is forward-reachable from `open`, yet
`allowed_statuses open` does not contain `missed`. -/
theorem c1_counterexample :
    (missedS ∈ specForwardTable openS ∨ openS ∈ specForwardTable missedS ∨
      missedS = openS) ∧ missedS ∉ allowed_statuses openS := by
  decide

/-- C1 (amended): for every pair of states, `allowed_statuses current`
contains `target` iff `target` is forward-reachable from `current` per the
transition table actually in the source (`STATUS_TRANSITIONS`: open ->
open, closed, cancelled; closed -> closed, reviewed; reviewed -> reviewed;
cancelled -> cancelled, reviewed; missed -> missed, reviewed), or `current`
is forward-reachable from `target` per that table, or the two are equal. -/
theorem c1_allowed_statuses_characterization :
    ∀ current target : TradeState,
      target ∈ allowed_statuses current ↔
        (target ∈ STATUS_TRANSITIONS current ∨
          current ∈ STATUS_TRANSITIONS target ∨ target = current) := by
  decide

/-- C2 (counterexample): proposing exactly the persisted chart set (one
chart, url "a", linked only to this trade) is not a no-op: the run deletes
chart row 1, inserts a fresh chart row 2, and the surviving child's
identity changes from 1 to 2. -/
theorem c2_counterexample :
    (exampleChartDB.charts.map (fun p => ⟨some p.2.chart_url, p.2.description⟩)
        = ([⟨some "a", none⟩] : List ChartRow)) ∧
    replace_trade_charts exampleChartDB 1 [⟨some "a", none⟩] =
      .ok ({ exampleChartDB with charts := [(2, ⟨"a", none⟩)],
                                 tradeCharts := [(1, 2)], nextChartId := 3 },
        [.unlinkChart 1 1, .deleteChartRow 1, .insertChart 2, .linkChart 1 2]) ∧
    ({ exampleChartDB with charts := [(2, ⟨"a", none⟩)],
                           tradeCharts := [(1, 2)], nextChartId := 3 } : DB).charts
      ≠ exampleChartDB.charts := by
  refine ⟨rfl, rfl, ?_⟩
  decide

/-- C3 (counterexample): reconciling trade 1's notes down to the empty set
deletes note 1 outright even though note 1 still has a junction link to
analysis 7 at the moment of deletion — the child record is removed despite
a remaining link to another owner (the cascade even wipes that link). -/
theorem c3_counterexample :
    (7, 1) ∈ exampleSharedNoteDB.analysisNotes ∧
    replace_trade_notes exampleSharedNoteDB 1 [] =
      .ok ({ exampleSharedNoteDB with notes := [], tradeNotes := [],
                                      analysisNotes := [] },
        [.unlinkNote 1 1, .deleteNote 1]) ∧
    ({ exampleSharedNoteDB with notes := [], tradeNotes := [],
                                analysisNotes := [] } : DB).notes = [] := by
  exact ⟨by decide, rfl, rfl⟩

/-- C5 (counterexample): the tag round trip preserves duplicates — the
claim's own example `["a", "b", "a"]` comes back as `["a", "b", "a"]`, not
the duplicate-free `["a", "b"]`; and a tag containing a comma is broken
apart, so the round trip does not in general return the trimmed tag list
either. -/
theorem c5_counterexample :
    tagsRoundTrip [some "a", some "b", some "a"] = ["a", "b", "a"] ∧
    (["a", "b", "a"] : List String) ≠ ["a", "b"] ∧
    tagsRoundTrip [some "a,b"] = ["a", "b"] ∧
    normalizedTagList [some "a,b"] = ["a,b"] ∧
    (["a", "b"] : List String) ≠ ["a,b"] := by
  exact ⟨by decide, by decide, by decide, by decide, by decide⟩

/-- C6: when the submitted target state sits below the closed tier (its
stage is the open stage, i.e. the state is open, cancelled or missed), the
assembled payload writes `result`, `net_pnl`, `risk_reward`,
`reward_percent`, `hot_thoughts` and `emotional_problems` as null,
whatever the widgets and the stored trade held. -/
theorem c6_downgrade_resets_closed_fields
    (selected : TradeState) (ov : OpenValues) (cw : ClosedInputs)
    (em : List String) (rw : ReviewInputs) (tr : TradeCtx)
    (h : STATUS_STAGE selected = Stage.openStage) :
    ∃ p, submit_trade_update selected ov cw em rw tr = .ok p ∧
      p.result = none ∧ p.net_pnl = none ∧ p.risk_reward = none ∧
      p.reward_percent = none ∧ p.hot_thoughts = none ∧
      p.emotional_problems = none := by
  cases selected with
  | openS => exact ⟨_, rfl, rfl, rfl, rfl, rfl, rfl, rfl⟩
  | cancelledS => exact ⟨_, rfl, rfl, rfl, rfl, rfl, rfl, rfl⟩
  | missedS => exact ⟨_, rfl, rfl, rfl, rfl, rfl, rfl, rfl⟩
  | closedS => simp [STATUS_STAGE] at h
  | reviewedS => simp [STATUS_STAGE] at h

/-- C6 (witness): a concrete downgrade to `open` with stale closed-stage
widget values still produces an all-null closed-field payload. -/
theorem c6_downgrade_resets_closed_fields_witness :
    ∃ p, submit_trade_update openS
        ⟨"2024-01-02", "10:00:00", some 1, "EUR/USD", none, none, 1⟩
        ⟨"win", some 100, 2, 10, "kept my plan"⟩ ["premature exit"]
        ⟨"calm", some 1⟩ ⟨some "old cold", some 1⟩ = .ok p ∧
      p.result = none ∧ p.net_pnl = none ∧ p.risk_reward = none ∧
      p.reward_percent = none ∧ p.hot_thoughts = none ∧
      p.emotional_problems = none :=
  c6_downgrade_resets_closed_fields openS
    ⟨"2024-01-02", "10:00:00", some 1, "EUR/USD", none, none, 1⟩
    ⟨"win", some 100, 2, 10, "kept my plan"⟩ ["premature exit"]
    ⟨"calm", some 1⟩ ⟨some "old cold", some 1⟩ rfl

/-- C7: for a submit targeting the closed / review tier, a placeholder
result or a missing Net PnL aborts the submit with an error before any
payload is assembled, and the error list names every violated field at
once; a result from the vocabulary together with a present Net PnL passes
that rule and the submit proceeds to the payload. -/
theorem c7_closed_tier_validation
    (selected : TradeState) (ov : OpenValues) (cw : ClosedInputs)
    (em : List String) (rw : ReviewInputs) (tr : TradeCtx)
    (h : selected = closedS ∨ selected = reviewedS) :
    ((cw.result = RESULT_PLACEHOLDER ∨ cw.net_pnl = none) →
      ∃ errs, submit_trade_update selected ov cw em rw tr = .error errs ∧
        errs ≠ [] ∧
        (cw.result = RESULT_PLACEHOLDER → "Select the trade result." ∈ errs) ∧
        (cw.net_pnl = none → "Provide Net PnL." ∈ errs)) ∧
    (cw.result ∈ TRADE_RESULT_VALUES → cw.net_pnl ≠ none →
      submit_trade_update selected ov cw em rw tr =
        .ok (buildUpdatePayload selected ov (some cw) em
          (if Stage.reviewStage ∈ visible_stages selected then some rw else none)
          tr)) := by
  have hres : cw.result ∈ TRADE_RESULT_VALUES → cw.result ≠ RESULT_PLACEHOLDER := by
    intro hv hph
    rw [hph] at hv
    exact absurd hv (by decide)
  rcases h with rfl | rfl
  · constructor
    · intro hbad
      by_cases hr : cw.result = RESULT_PLACEHOLDER <;> by_cases hp : cw.net_pnl = none
      · exact ⟨["Select the trade result.", "Provide Net PnL."],
          by simp [submit_trade_update, validateSubmit, visible_stages, STATUS_STAGE, hr, hp],
          by simp, fun _ => by simp, fun _ => by simp⟩
      · exact ⟨["Select the trade result."],
          by simp [submit_trade_update, validateSubmit, visible_stages, STATUS_STAGE, hr, hp],
          by simp, fun _ => by simp, fun hpn => (hp hpn).elim⟩
      · exact ⟨["Provide Net PnL."],
          by simp [submit_trade_update, validateSubmit, visible_stages, STATUS_STAGE, hr, hp],
          by simp, fun hrr => (hr hrr).elim, fun _ => by simp⟩
      · rcases hbad with hbad | hbad
        · exact (hr hbad).elim
        · exact (hp hbad).elim
    · intro hv hp
      have hr := hres hv
      simp [submit_trade_update, validateSubmit, visible_stages, STATUS_STAGE, hr, hp]
  · constructor
    · intro hbad
      by_cases hr : cw.result = RESULT_PLACEHOLDER <;> by_cases hp : cw.net_pnl = none
      · exact ⟨["Select the trade result.", "Provide Net PnL."],
          by simp [submit_trade_update, validateSubmit, visible_stages, STATUS_STAGE, hr, hp],
          by simp, fun _ => by simp, fun _ => by simp⟩
      · exact ⟨["Select the trade result."],
          by simp [submit_trade_update, validateSubmit, visible_stages, STATUS_STAGE, hr, hp],
          by simp, fun _ => by simp, fun hpn => (hp hpn).elim⟩
      · exact ⟨["Provide Net PnL."],
          by simp [submit_trade_update, validateSubmit, visible_stages, STATUS_STAGE, hr, hp],
          by simp, fun hrr => (hr hrr).elim, fun _ => by simp⟩
      · rcases hbad with hbad | hbad
        · exact (hr hbad).elim
        · exact (hp hbad).elim
    · intro hv hp
      have hr := hres hv
      simp [submit_trade_update, validateSubmit, visible_stages, STATUS_STAGE, hr, hp]

/-- C7 (witness): submitting a closed trade with the placeholder result and
a missing Net PnL is rejected with both messages at once; with result
"win" and Net PnL 125.5 the rule passes. -/
theorem c7_closed_tier_validation_witness :
    (∃ errs, submit_trade_update closedS
        ⟨"2024-01-02", "10:00:00", some 1, "EUR/USD", none, none, 1⟩
        ⟨RESULT_PLACEHOLDER, none, 2, 10, ""⟩ [] ⟨"", none⟩ ⟨none, none⟩ =
          .error errs ∧ errs ≠ [] ∧
        (RESULT_PLACEHOLDER = RESULT_PLACEHOLDER → "Select the trade result." ∈ errs) ∧
        ((none : Option Rat) = none → "Provide Net PnL." ∈ errs)) ∧
    submit_trade_update closedS
        ⟨"2024-01-02", "10:00:00", some 1, "EUR/USD", none, none, 1⟩
        ⟨"win", some (251/2), 2, 10, ""⟩ [] ⟨"", none⟩ ⟨none, none⟩ =
      .ok (buildUpdatePayload closedS
        ⟨"2024-01-02", "10:00:00", some 1, "EUR/USD", none, none, 1⟩
        (some ⟨"win", some (251/2), 2, 10, ""⟩) []
        (if Stage.reviewStage ∈ visible_stages closedS then
          some (⟨"", none⟩ : ReviewInputs) else none) ⟨none, none⟩) := by
  constructor
  · exact (c7_closed_tier_validation closedS
      ⟨"2024-01-02", "10:00:00", some 1, "EUR/USD", none, none, 1⟩
      ⟨RESULT_PLACEHOLDER, none, 2, 10, ""⟩ [] ⟨"", none⟩ ⟨none, none⟩
      (Or.inl rfl)).1 (Or.inl rfl)
  · exact (c7_closed_tier_validation closedS
      ⟨"2024-01-02", "10:00:00", some 1, "EUR/USD", none, none, 1⟩
      ⟨"win", some (251/2), 2, 10, ""⟩ [] ⟨"", none⟩ ⟨none, none⟩
      (Or.inl rfl)).2 (by decide) (by decide)

/-- C4: no closing timestamp can ever be persisted by the engine — the
submit payload of `render_trade_manager` carries no `closed_at_utc` key,
`_normalize_trade_payload` filters the key out of any caller-supplied
payload (`WRITABLE_TRADE_FIELDS` omits it), the `trades` table of
`SCHEMA_SQL` has no such column, and yet `close_trade`'s `UPDATE`
statement assigns it (so `close_trade` cannot run against this schema). -/
theorem c4_closed_at_utc_never_persisted :
    (∀ p : Payload, "closed_at_utc" ∉ (payloadToData p).map Prod.fst) ∧
    "closed_at_utc" ∉ WRITABLE_TRADE_FIELDS ∧
    "closed_at_utc" ∉ tradesTableColumns ∧
    "closed_at_utc" ∈ close_trade_update_columns ∧
    (∀ data out, normalize_trade_payload data = .ok out →
      "closed_at_utc" ∉ out.map Prod.fst) := by
  refine ⟨?_, by decide, by decide, by decide, ?_⟩
  · intro p
    simp [payloadToData]
  · intro data out hout hmem
    have := normalize_keys_writable data out hout "closed_at_utc" hmem
    simp [WRITABLE_TRADE_FIELDS] at this

/-- C4 (witness): a payload that explicitly carries `closed_at_utc`
(as the superseded `components/trade_manager.py` submit path builds on a
first transition to closed) has the key dropped by normalisation: only the
`state` assignment survives. -/
theorem c4_closed_at_utc_never_persisted_witness :
    "closed_at_utc" ∉
      (([("state", Value.vStr "closed")] : List (String × Value)).map Prod.fst) :=
  c4_closed_at_utc_never_persisted.2.2.2.2
    [("closed_at_utc", .vStr "2024-01-02T10:00:00"), ("state", .vStr "closed")]
    [("state", .vStr "closed")] rfl

/-- Helper: the submit pipeline written out as a single conditional. -/
theorem submit_trade_update_eq (selected : TradeState) (ov : OpenValues)
    (cw : ClosedInputs) (em : List String) (rwi : ReviewInputs) (tr : TradeCtx) :
    submit_trade_update selected ov cw em rwi tr =
      (if validateSubmit selected
          (if Stage.closedStage ∈ visible_stages selected then some cw else none) = [] then
        .ok (buildUpdatePayload selected ov
          (if Stage.closedStage ∈ visible_stages selected then some cw else none) em
          (if Stage.reviewStage ∈ visible_stages selected then some rwi else none) tr)
      else .error (validateSubmit selected
          (if Stage.closedStage ∈ visible_stages selected then some cw else none))) := rfl

/-- Helper: the assembled payload always carries the open stage's risk
percent through unchanged. -/
theorem buildUpdatePayload_risk_pct (selected : TradeState) (ov : OpenValues)
    (ci? : Option ClosedInputs) (em : List String) (ri? : Option ReviewInputs)
    (tr : TradeCtx) :
    (buildUpdatePayload selected ov ci? em ri? tr).risk_pct = ov.risk_pct := by
  cases ci? <;> cases ri? <;> rfl

/-- C9 (counterexample): a submit whose risk percent is 10 — far outside
the claimed [0.5, 2.0] range — sails through validation and reaches the
payload with `risk_pct = 10`, and `_normalize_trade_payload` passes the
value to the `UPDATE` unchanged: the engine performs no re-validation. -/
theorem c9_counterexample :
    (∃ p, submit_trade_update openS
        ⟨"2024-01-02", "10:00:00", some 1, "EUR/USD", none, none, 10⟩
        ⟨RESULT_PLACEHOLDER, none, 0, 0, ""⟩ [] ⟨"", none⟩ ⟨none, none⟩ =
          .ok p ∧ p.risk_pct = 10) ∧
    ¬((1 / 2 : Rat) ≤ 10 ∧ (10 : Rat) ≤ 2) ∧
    normalize_trade_payload [("risk_pct", .vRat 10)] =
      .ok [("risk_pct", .vRat 10)] := by
  refine ⟨⟨_, rfl, rfl⟩, ?_, rfl⟩
  intro h
  exact absurd h.2 (by norm_num)

/-- C9 (amended): the engine performs no risk-percent validation at all —
the [0.5, 2.0] range exists only in the UI slider.  Whether a submit is
accepted is independent of the risk value, an accepted payload carries the
risk value through unchanged, and `_normalize_trade_payload` passes any
`risk_pct` value to the `UPDATE` statement untouched. -/
theorem c9_no_engine_risk_validation
    (selected : TradeState) (ov : OpenValues) (cw : ClosedInputs)
    (em : List String) (rwi : ReviewInputs) (tr : TradeCtx) (r r' : Rat) :
    (∀ p, submit_trade_update selected { ov with risk_pct := r } cw em rwi tr =
        .ok p → p.risk_pct = r) ∧
    (∀ e, submit_trade_update selected { ov with risk_pct := r } cw em rwi tr =
        .error e ↔
      submit_trade_update selected { ov with risk_pct := r' } cw em rwi tr =
        .error e) ∧
    (∀ q : Rat, normalize_trade_payload [("risk_pct", .vRat q)] =
        .ok [("risk_pct", .vRat q)]) := by
  by_cases hval : validateSubmit selected
      (if Stage.closedStage ∈ visible_stages selected then some cw else none) = []
  · refine ⟨?_, ?_, fun q => rfl⟩
    · intro p hp
      rw [submit_trade_update_eq, if_pos hval] at hp
      injection hp with hp
      subst hp
      exact buildUpdatePayload_risk_pct ..
    · intro e
      rw [submit_trade_update_eq, submit_trade_update_eq, if_pos hval, if_pos hval]
      constructor <;> intro h <;> cases h
  · refine ⟨?_, ?_, fun q => rfl⟩
    · intro p hp
      rw [submit_trade_update_eq, if_neg hval] at hp
      cases hp
    · intro e
      rw [submit_trade_update_eq, submit_trade_update_eq, if_neg hval, if_neg hval]

/-- C9 (witness): the amended theorem at a concrete out-of-range submit —
risk percent 10 is carried into the accepted payload. -/
theorem c9_no_engine_risk_validation_witness :
    (buildUpdatePayload openS
        ⟨"2024-01-02", "10:00:00", some 1, "EUR/USD", none, none, 10⟩ none []
        none ⟨none, none⟩).risk_pct = 10 :=
  (c9_no_engine_risk_validation openS
    ⟨"2024-01-02", "10:00:00", some 1, "EUR/USD", none, none, 0⟩
    ⟨RESULT_PLACEHOLDER, none, 0, 0, ""⟩ [] ⟨"", none⟩ ⟨none, none⟩ 10 1).1 _ rfl

/-- C10 (counterexample): `update_trade` on a payload that does contain a
writable field (`estimation`) but whose value is not int-coercible raises
the estimation validation error — not a not-found error — even though no
trade with id 999 exists, refuting the claim that any payload with a
writable field raises a not-found error for a missing id. -/
theorem c10_counterexample :
    update_trade exampleTradeDB 999 [("estimation", .vStr "abc")] =
      .error "estimation must be an integer" ∧
    "estimation" ∈ WRITABLE_TRADE_FIELDS ∧
    (∀ row ∈ exampleTradeDB.trades, row.1 ≠ 999) ∧
    "estimation must be an integer" ≠ "trade not found" := by
  exact ⟨rfl, by decide, by decide, by decide⟩

/-- C10 (amended): a payload with none of the writable trade fields makes
`update_trade` return silently with the database untouched, whatever the
id; a payload holding at least one writable field either fails payload
normalisation (a non-int-coercible `estimation`) or, when normalisation
succeeds, raises the not-found error for an id without a matching trade
row — and in the error cases no row is modified (the state is discarded
with the error). -/
theorem c10_update_trade_empty_vs_missing :
    (∀ (db : DB) (tid : Nat) (data : List (String × Value)),
      (∀ k ∈ WRITABLE_TRADE_FIELDS, lookupKey data k = none) →
      update_trade db tid data = .ok db) ∧
    (∀ (db : DB) (tid : Nat) (data out : List (String × Value)),
      normalize_trade_payload data = .ok out →
      (∃ k ∈ WRITABLE_TRADE_FIELDS, lookupKey data k ≠ none) →
      (∀ row ∈ db.trades, row.1 ≠ tid) →
      update_trade db tid data = .error "trade not found") := by
  constructor
  · intro db tid data hnone
    have hnorm : normalize_trade_payload data = .ok [] := by
      rw [normalize_trade_payload_eq_foldlM]
      exact foldlM_normalizeStep_all_none data WRITABLE_TRADE_FIELDS [] hnone
    unfold update_trade
    rw [hnorm]
    rfl
  · intro db tid data out hnorm hsome hmiss
    obtain ⟨k, hk, hlk⟩ := hsome
    have hne : out ≠ [] := by
      rw [normalize_trade_payload_eq_foldlM] at hnorm
      exact (foldlM_normalizeStep_nonempty data WRITABLE_TRADE_FIELDS [] out hnorm).2
        k hk hlk
    have hany : db.trades.any (fun p => p.1 = tid) = false := by
      rw [List.any_eq_false]
      intro p hp
      simpa using hmiss p hp
    unfold update_trade
    rw [hnorm]
    show (if out = [] then Except.ok db
      else if db.trades.any (fun p => p.1 = tid) then _ else
        Except.error "trade not found") = Except.error "trade not found"
    rw [if_neg hne, hany]
    rfl

/-- C10 (witness): the amended theorem at concrete inputs — a payload of
only non-writable keys succeeds silently against the missing id 999, while
a payload carrying the writable `asset` key raises the not-found error. -/
theorem c10_update_trade_empty_vs_missing_witness :
    update_trade exampleTradeDB 999 [("id", .vInt 5)] = .ok exampleTradeDB ∧
    update_trade exampleTradeDB 999 [("asset", .vStr "GBP/USD")] =
      .error "trade not found" := by
  constructor
  · exact c10_update_trade_empty_vs_missing.1 exampleTradeDB 999
      [("id", .vInt 5)] (by decide)
  · exact c10_update_trade_empty_vs_missing.2 exampleTradeDB 999
      [("asset", .vStr "GBP/USD")] [("asset", .vStr "GBP/USD")] rfl
      ⟨"asset", by decide, by decide⟩ (by decide)

end TradingJournal

namespace TradingJournal

open TradeState Stage

/-- Helper: stripping the empty string is the identity. -/
theorem pyStrip_empty : pyStrip "" = "" := rfl

/-- Helper: `Int.toNat` undoes `Int.ofNat`. -/
theorem int_toNat_ofNat (n : Nat) : (Int.ofNat n).toNat = n := rfl

/-- Helper: a normalised optional text field survives the
`(x or "").strip() or None` pipeline unchanged. -/
theorem normalized_optOfBlank (o : Option String) (h : NormalizedStr o) :
    optOfBlank (pyStrip (orEmpty o)) = o := by
  cases o with
  | none => rfl
  | some t =>
      obtain ⟨h1, h2⟩ := h t rfl
      simp [orEmpty, h1, optOfBlank, h2]

/-- Helper: replacing the entry of an absent key is the identity map. -/
theorem keys_not_mem_map_id (nid : Nat) (x : Nat × NoteRec) :
    ∀ l : List (Nat × NoteRec), nid ∉ l.map Prod.fst →
      l.map (fun p => if p.1 = nid then x else p) = l := by
  intro l
  induction l with
  | nil => intro _; rfl
  | cons q rest ih =>
      intro h
      simp only [List.map_cons, List.mem_cons] at h
      push_neg at h
      rw [List.map_cons, if_neg (fun hq => h.1 hq.symm), ih h.2]

/-- Helper: rewriting a stored entry with its own value is the identity. -/
theorem notes_replace_self (nid : Nat) (rec : NoteRec) :
    ∀ l : List (Nat × NoteRec), (l.map Prod.fst).Nodup → (nid, rec) ∈ l →
      l.map (fun p => if p.1 = nid then (nid, rec) else p) = l := by
  intro l
  induction l with
  | nil => intro _ h; cases h
  | cons q rest ih =>
      intro hnodup hmem
      rw [List.map_cons] at hnodup
      have hhead := (List.nodup_cons.mp hnodup).1
      rcases List.mem_cons.mp hmem with rfl | hmem'
      · rw [List.map_cons, if_pos rfl,
          keys_not_mem_map_id nid (nid, rec) rest (by simpa using hhead)]
      · by_cases hq : q.1 = nid
        · exfalso
          have h1 : nid ∈ rest.map Prod.fst := List.mem_map_of_mem Prod.fst hmem'
          rw [hq] at hhead
          exact hhead h1
        · rw [List.map_cons, if_neg hq, ih (List.nodup_cons.mp hnodup).2 hmem']

/-- Helper: `find?` returns the unique entry of a present key. -/
theorem find_of_mem_nodup (nid : Nat) (rec : NoteRec) :
    ∀ l : List (Nat × NoteRec), (l.map Prod.fst).Nodup → (nid, rec) ∈ l →
      l.find? (fun p => p.1 = nid) = some (nid, rec) := by
  intro l
  induction l with
  | nil => intro _ h; cases h
  | cons q rest ih =>
      intro hnodup hmem
      rw [List.map_cons] at hnodup
      have hhead := (List.nodup_cons.mp hnodup).1
      rcases List.mem_cons.mp hmem with rfl | hmem'
      · exact List.find?_cons_of_pos _ (by simp)
      · by_cases hq : q.1 = nid
        · exfalso
          have h1 : nid ∈ rest.map Prod.fst := List.mem_map_of_mem Prod.fst hmem'
          rw [hq] at hhead
          exact hhead h1
        · rw [List.find?_cons_of_neg _ (by simp [hq]),
            ih (List.nodup_cons.mp hnodup).2 hmem']

/-- Helper: `lookupNote` finds a stored row under distinct keys. -/
theorem lookupNote_of_mem (db : DB) (nid : Nat) (rec : NoteRec)
    (hnodup : (noteKeys db).Nodup) (hmem : (nid, rec) ∈ db.notes) :
    lookupNote db nid = some rec := by
  unfold lookupNote
  rw [find_of_mem_nodup nid rec db.notes hnodup hmem]
  rfl

/-- Helper: `update_note` on a present key succeeds with the rewritten
table. -/
theorem update_note_ok (db : DB) (nid : Nat) (t : Option String) (b : String)
    (tg : Option String) (hmem : nid ∈ noteKeys db) :
    update_note db nid t b tg =
      .ok { db with notes := db.notes.map (fun p =>
        if p.1 = nid then (nid, ⟨t, some b, tg⟩) else p) } := by
  obtain ⟨p, hp, hp1⟩ := List.mem_map.mp hmem
  have hany : db.notes.any (fun p => p.1 = nid) = true :=
    List.any_eq_true.mpr ⟨p, hp, by simp [hp1]⟩
  unfold update_note
  rw [hany]
  rfl

/-- Helper: linking an already-linked note leaves the state unchanged. -/
theorem link_note_mem (db : DB) (tid nid : Nat)
    (h : (tid, nid) ∈ db.tradeNotes) : link_note_to_trade db tid nid = db := by
  unfold link_note_to_trade
  rw [if_pos h]

/-- Helper: feeding a trade's own stored notes back through the row loop
rewrites each of them in place with identical values and keeps every id --
the state is returned unchanged. -/
theorem processNoteRows_self (tid : Nat) (existingIds : List Nat) (db : DB)
    (hnodup : (noteKeys db).Nodup) :
    ∀ l : List (Nat × NoteRec),
      (∀ p ∈ l, p ∈ db.notes ∧ (tid, p.1) ∈ db.tradeNotes ∧
        NormalizedNoteRec p.2 ∧ 0 < p.1 ∧ Int.ofNat p.1 ∈ existingIds.map Int.ofNat) →
      processNoteRows tid existingIds db (l.map noteRowOf) =
        .ok (db, l.map (fun p => Int.ofNat p.1),
          l.flatMap (fun p => [Op.updateNote p.1 (some p.2) p.2, Op.linkNote tid p.1])) := by
  intro l
  induction l with
  | nil => intro _; rfl
  | cons p rest ih =>
      intro hl
      obtain ⟨hpmem, hplink, hpnorm, hppos, hpex⟩ := hl p (List.mem_cons_self p rest)
      obtain ⟨⟨b, hb, hbs, hbne⟩, htitle, htags⟩ := hpnorm
      have hrec : (⟨p.2.title, some b, p.2.tags⟩ : NoteRec) = p.2 := by
        rw [← hb]
      have hcond : Int.ofNat p.1 ≠ 0 ∧ Int.ofNat p.1 ∈ existingIds.map Int.ofNat := by
        refine ⟨?_, hpex⟩
        intro h0
        exact absurd (Int.ofNat_eq_zero.mp h0) hppos.ne'
      have hupd : update_note db p.1 p.2.title b p.2.tags = .ok db := by
        rw [update_note_ok db p.1 p.2.title b p.2.tags
          (List.mem_map_of_mem Prod.fst hpmem)]
        have hmap : db.notes.map (fun q =>
            if q.1 = p.1 then (p.1, (⟨p.2.title, some b, p.2.tags⟩ : NoteRec)) else q) =
            db.notes := by
          rw [hrec]
          exact notes_replace_self p.1 p.2 db.notes hnodup hpmem
        rw [hmap]
      have hlink : link_note_to_trade db tid p.1 = db := link_note_mem db tid p.1 hplink
      have hrest := ih (fun q hq => hl q (List.mem_cons_of_mem _ hq))
      rw [List.map_cons]
      simp only [processNoteRows, noteRowOf]
      simp only [normalized_optOfBlank p.2.title htitle,
        normalized_optOfBlank p.2.tags htags]
      simp only [hb, orEmpty, hbs]
      rw [if_neg hbne]
      simp only [pyIntOfRaw]
      rw [if_pos hcond]
      simp only [int_toNat_ofNat,
        lookupNote_of_mem db p.1 p.2 hnodup hpmem, hupd, hlink, hrest]
      simp only [hrec, Bind.bind, Except.bind, hlink, hrest]
      simp

/-- C2 (amended): for `replace_trade_notes`, proposing exactly the
persisted note rows of the trade (their ids, titles, bodies and tags, with
the stored fields in the normalised form the reconciler itself writes)
leaves the database completely unchanged and issues no insert and no
delete — though every kept row does receive an update writing values
identical to the stored ones. -/
theorem c2_notes_noop (db : DB) (tid : Nat)
    (hnodup : (noteKeys db).Nodup)
    (hnorm : ∀ p ∈ db.notes, NormalizedNoteRec p.2)
    (hpos : ∀ id ∈ noteKeys db, 0 < id) :
    ∃ ops, replace_trade_notes db tid
        ((list_notes_for_trade db tid).map noteRowOf) = .ok (db, ops) ∧
      ops.filter isInsertNoteOp = [] ∧ ops.filter isDeleteNoteOp = [] ∧
      (∀ n old new, Op.updateNote n old new ∈ ops → old = some new) := by
  have hcond : ∀ p ∈ list_notes_for_trade db tid, p ∈ db.notes ∧
      (tid, p.1) ∈ db.tradeNotes ∧ NormalizedNoteRec p.2 ∧ 0 < p.1 ∧
      Int.ofNat p.1 ∈ ((list_notes_for_trade db tid).map Prod.fst).map Int.ofNat := by
    intro p hp
    have hf := List.mem_filter.mp hp
    have h1 : p ∈ db.notes := hf.1
    have h2 : (tid, p.1) ∈ db.tradeNotes := by simpa using hf.2
    exact ⟨h1, h2, hnorm p h1, hpos p.1 (List.mem_map_of_mem Prod.fst h1),
      List.mem_map_of_mem Int.ofNat (List.mem_map_of_mem Prod.fst hp)⟩
  have hproc := processNoteRows_self tid ((list_notes_for_trade db tid).map Prod.fst)
    db hnodup (list_notes_for_trade db tid) hcond
  have htd : ((list_notes_for_trade db tid).map Prod.fst).filter
      (fun nid => Int.ofNat nid ∉ (list_notes_for_trade db tid).map
        (fun p => Int.ofNat p.1)) = [] := by
    rw [List.filter_eq_nil]
    intro nid hnid
    obtain ⟨p, hp, rfl⟩ := List.mem_map.mp hnid
    simp only [decide_eq_true_eq, not_not]
    exact List.mem_map_of_mem (fun p => Int.ofNat p.1) hp
  refine ⟨(list_notes_for_trade db tid).flatMap
      (fun p => [Op.updateNote p.1 (some p.2) p.2, Op.linkNote tid p.1]), ?_, ?_, ?_, ?_⟩
  · unfold replace_trade_notes
    simp only [hproc, Bind.bind, Except.bind, htd, deleteNotesLoop]
    simp
  · rw [List.filter_eq_nil]
    intro op hop
    obtain ⟨p, _, hin⟩ := List.mem_flatMap.mp hop
    rcases List.mem_cons.mp hin with rfl | hin
    · simp [isInsertNoteOp]
    · rcases List.mem_cons.mp hin with rfl | hin
      · simp [isInsertNoteOp]
      · cases hin
  · rw [List.filter_eq_nil]
    intro op hop
    obtain ⟨p, _, hin⟩ := List.mem_flatMap.mp hop
    rcases List.mem_cons.mp hin with rfl | hin
    · simp [isDeleteNoteOp]
    · rcases List.mem_cons.mp hin with rfl | hin
      · simp [isDeleteNoteOp]
      · cases hin
  · intro n old new hop
    obtain ⟨p, _, hin⟩ := List.mem_flatMap.mp hop
    rcases List.mem_cons.mp hin with heq | hin
    · obtain ⟨-, h2, h3⟩ := Op.updateNote.inj heq
      rw [h2, h3]
    · rcases List.mem_cons.mp hin with heq | hin
      · cases heq
      · cases hin

/-- C2 (witness): the amended theorem on the concrete one-note database —
replaying the stored note as the proposed row returns the state unchanged
with no insert and no delete issued. -/
theorem c2_notes_noop_witness :
    ∃ ops, replace_trade_notes exampleSharedNoteDB 1
        ((list_notes_for_trade exampleSharedNoteDB 1).map noteRowOf) =
          .ok (exampleSharedNoteDB, ops) ∧
      ops.filter isInsertNoteOp = [] ∧ ops.filter isDeleteNoteOp = [] ∧
      (∀ n old new, Op.updateNote n old new ∈ ops → old = some new) :=
  c2_notes_noop exampleSharedNoteDB 1 (by decide)
    (fun p hp => by
      have hp' : p = (1, ⟨none, some "hello", none⟩) := by
        simpa [exampleSharedNoteDB] using hp
      subst hp'
      refine ⟨⟨"hello", rfl, rfl, by decide⟩, ?_, ?_⟩ <;>
        exact fun t ht => nomatch ht)
    (by decide)

end TradingJournal

namespace TradingJournal

open TradeState Stage

/-- Helper: linking a note never touches the notes table. -/
theorem link_note_to_trade_notes (db : DB) (tid nid : Nat) :
    (link_note_to_trade db tid nid).notes = db.notes := by
  unfold link_note_to_trade
  split <;> rfl

/-- Helper: linking a note never touches the id counter. -/
theorem link_note_to_trade_nextNoteId (db : DB) (tid nid : Nat) :
    (link_note_to_trade db tid nid).nextNoteId = db.nextNoteId := by
  unfold link_note_to_trade
  split <;> rfl

/-- Helper: rewriting one entry in place preserves the key list. -/
theorem map_replace_keys (nid : Nat) (rec : NoteRec) :
    ∀ l : List (Nat × NoteRec),
      (l.map (fun p => if p.1 = nid then (nid, rec) else p)).map Prod.fst =
        l.map Prod.fst := by
  intro l
  induction l with
  | nil => rfl
  | cons q rest ih =>
      by_cases h : q.1 = nid <;> simp [h, ih]

/-- Helper: entries with a different key survive an in-place rewrite. -/
theorem mem_map_replace_of_ne (nid : Nat) (rec : NoteRec)
    (l : List (Nat × NoteRec)) (p : Nat × NoteRec)
    (hne : p.1 ≠ nid) (hp : p ∈ l) :
    p ∈ l.map (fun q => if q.1 = nid then (nid, rec) else q) := by
  have := List.mem_map_of_mem (fun q => if q.1 = nid then (nid, rec) else q) hp
  simpa [hne] using this

/-- Helper: the head reduction of `noteUpdateTargets` on a blank-body row. -/
theorem noteUpdateTargets_cons_blank (E : List Nat) (row : NoteRow)
    (rest : List NoteRow) (h : pyStrip (orEmpty row.body) = "") :
    noteUpdateTargets E (row :: rest) = noteUpdateTargets E rest := by
  unfold noteUpdateTargets
  refine List.filterMap_cons_none ?_
  show (if pyStrip (orEmpty row.body) = "" then none
    else match pyIntOfRaw row.id with
      | some n => if n ≠ 0 ∧ n ∈ E.map Int.ofNat then some n else none
      | none => none) = none
  rw [if_pos h]

/-- Helper: the head reduction of `noteUpdateTargets` on an update row. -/
theorem noteUpdateTargets_cons_update (E : List Nat) (row : NoteRow)
    (rest : List NoteRow) (n : Int) (hb : pyStrip (orEmpty row.body) ≠ "")
    (hp : pyIntOfRaw row.id = some n) (hc : n ≠ 0 ∧ n ∈ E.map Int.ofNat) :
    noteUpdateTargets E (row :: rest) = n :: noteUpdateTargets E rest := by
  unfold noteUpdateTargets
  refine List.filterMap_cons_some ?_
  show (if pyStrip (orEmpty row.body) = "" then none
    else match pyIntOfRaw row.id with
      | some n => if n ≠ 0 ∧ n ∈ E.map Int.ofNat then some n else none
      | none => none) = some n
  rw [if_neg hb, hp]
  exact if_pos hc

/-- Helper: the head reduction of `noteUpdateTargets` on an insert row
whose id parsed but failed the membership test. -/
theorem noteUpdateTargets_cons_spoof (E : List Nat) (row : NoteRow)
    (rest : List NoteRow) (n : Int) (hb : pyStrip (orEmpty row.body) ≠ "")
    (hp : pyIntOfRaw row.id = some n) (hc : ¬(n ≠ 0 ∧ n ∈ E.map Int.ofNat)) :
    noteUpdateTargets E (row :: rest) = noteUpdateTargets E rest := by
  unfold noteUpdateTargets
  refine List.filterMap_cons_none ?_
  show (if pyStrip (orEmpty row.body) = "" then none
    else match pyIntOfRaw row.id with
      | some n => if n ≠ 0 ∧ n ∈ E.map Int.ofNat then some n else none
      | none => none) = none
  rw [if_neg hb, hp]
  exact if_neg hc

/-- Helper: the head reduction of `noteUpdateTargets` on a row without a
parsable id. -/
theorem noteUpdateTargets_cons_noid (E : List Nat) (row : NoteRow)
    (rest : List NoteRow) (hb : pyStrip (orEmpty row.body) ≠ "")
    (hp : pyIntOfRaw row.id = none) :
    noteUpdateTargets E (row :: rest) = noteUpdateTargets E rest := by
  unfold noteUpdateTargets
  refine List.filterMap_cons_none ?_
  show (if pyStrip (orEmpty row.body) = "" then none
    else match pyIntOfRaw row.id with
      | some n => if n ≠ 0 ∧ n ∈ E.map Int.ofNat then some n else none
      | none => none) = none
  rw [if_neg hb, hp]

/-- Helper: a blank-body row is not counted as an insert. -/
theorem noteInsertRowB_blank (E : List Nat) (row : NoteRow)
    (h : pyStrip (orEmpty row.body) = "") : noteInsertRowB E row = false := by
  unfold noteInsertRowB
  rw [if_pos h]

/-- Helper: an update-target row is not counted as an insert. -/
theorem noteInsertRowB_update (E : List Nat) (row : NoteRow) (n : Int)
    (hb : pyStrip (orEmpty row.body) ≠ "") (hp : pyIntOfRaw row.id = some n)
    (hc : n ≠ 0 ∧ n ∈ E.map Int.ofNat) : noteInsertRowB E row = false := by
  unfold noteInsertRowB
  rw [if_neg hb, hp]
  exact if_pos hc

/-- Helper: a row whose parsed id fails the membership test counts as an
insert. -/
theorem noteInsertRowB_spoof (E : List Nat) (row : NoteRow) (n : Int)
    (hb : pyStrip (orEmpty row.body) ≠ "") (hp : pyIntOfRaw row.id = some n)
    (hc : ¬(n ≠ 0 ∧ n ∈ E.map Int.ofNat)) : noteInsertRowB E row = true := by
  unfold noteInsertRowB
  rw [if_neg hb, hp]
  exact if_neg hc

/-- Helper: a row without a parsable id counts as an insert. -/
theorem noteInsertRowB_noid (E : List Nat) (row : NoteRow)
    (hb : pyStrip (orEmpty row.body) ≠ "") (hp : pyIntOfRaw row.id = none) :
    noteInsertRowB E row = true := by
  unfold noteInsertRowB
  rw [if_neg hb, hp]

end TradingJournal

namespace TradingJournal

open TradeState Stage

/-- Helper: the garbage-collection loop of `replace_trade_notes` only ever
removes rows and links: the surviving notes and links existed before, every
processed id (and its trade links) is gone afterwards, rows with other ids
survive, and the issued operations are only unlink and delete calls. -/
theorem deleteNotesLoop_spec (tid : Nat) :
    ∀ (l : List Nat) (db : DB),
      (∀ p ∈ (deleteNotesLoop tid db l).1.notes, p ∈ db.notes) ∧
      (∀ ln ∈ (deleteNotesLoop tid db l).1.tradeNotes, ln ∈ db.tradeNotes) ∧
      (∀ nid ∈ l, nid ∉ noteKeys (deleteNotesLoop tid db l).1) ∧
      (∀ nid ∈ l, ∀ t, (t, nid) ∉ (deleteNotesLoop tid db l).1.tradeNotes) ∧
      (∀ p ∈ db.notes, p.1 ∉ l → p ∈ (deleteNotesLoop tid db l).1.notes) ∧
      (∀ op ∈ (deleteNotesLoop tid db l).2, isInsertNoteOp op = false ∧
        ∀ n old new, op ≠ Op.updateNote n old new) := by
  intro l
  induction l with
  | nil =>
      intro db
      exact ⟨fun p hp => hp, fun ln h => h, by simp, by simp,
        fun p hp _ => hp, by simp [deleteNotesLoop]⟩
  | cons nid rest ih =>
      intro db
      have hred : deleteNotesLoop tid db (nid :: rest) =
          ((deleteNotesLoop tid
              (delete_note (unlink_note_from_trade db tid nid) nid) rest).1,
            .unlinkNote tid nid :: .deleteNote nid ::
              (deleteNotesLoop tid
                (delete_note (unlink_note_from_trade db tid nid) nid) rest).2) := rfl
      set db1 := delete_note (unlink_note_from_trade db tid nid) nid with hdb1
      have hnotes1 : db1.notes = db.notes.filter (fun p => p.1 ≠ nid) := rfl
      have hlinks1 : db1.tradeNotes =
          (db.tradeNotes.filter (fun ln => ln ≠ (tid, nid))).filter
            (fun ln => ln.2 ≠ nid) := rfl
      obtain ⟨ih1, ih2, ih3, ih4, ih5, ih6⟩ := ih db1
      rw [hred]
      refine ⟨?_, ?_, ?_, ?_, ?_, ?_⟩
      · intro p hp
        have h1 := ih1 p hp
        rw [hnotes1] at h1
        exact (List.mem_filter.mp h1).1
      · intro ln hln
        have h1 := ih2 ln hln
        rw [hlinks1] at h1
        exact (List.mem_filter.mp (List.mem_filter.mp h1).1).1
      · intro nid' hnid'
        rcases List.mem_cons.mp hnid' with rfl | hmem
        · intro hk
          obtain ⟨p, hp, hp1⟩ := List.mem_map.mp hk
          have h1 := ih1 p hp
          rw [hnotes1] at h1
          have := (List.mem_filter.mp h1).2
          rw [hp1] at this
          simp at this
        · exact ih3 nid' hmem
      · intro nid' hnid' t
        rcases List.mem_cons.mp hnid' with rfl | hmem
        · intro hln
          have h1 := ih2 (t, nid') hln
          rw [hlinks1] at h1
          have := (List.mem_filter.mp h1).2
          simp at this
        · exact ih4 nid' hmem t
      · intro p hp hpl
        have hne : p.1 ≠ nid := fun h => hpl (h ▸ List.mem_cons_self nid rest)
        have hmem1 : p ∈ db1.notes := by
          rw [hnotes1]
          exact List.mem_filter.mpr ⟨hp, by simpa using hne⟩
        exact ih5 p hmem1 (fun h => hpl (List.mem_cons_of_mem _ h))
      · intro op hop
        rcases List.mem_cons.mp hop with rfl | hop
        · exact ⟨rfl, fun n old new h => nomatch h⟩
        · rcases List.mem_cons.mp hop with rfl | hop
          · exact ⟨rfl, fun n old new h => nomatch h⟩
          · exact ih6 op hop

end TradingJournal

namespace TradingJournal

open TradeState Stage

/-- Helper: the row loop of `replace_trade_notes` succeeds and (1) keeps
every note id below the id counter, (2) never lowers the counter, (3)
keeps every existing child present, (4) leaves notes outside the owner's
existing-children set untouched, (5) issues an update only for a row whose
id parsed to a member of the existing-children set, (6) issues exactly one
insert per row that fails that check (with a non-blank body), (7) keeps an
existing id iff some row targeted it, and (8) issues no deletes. -/
theorem processNoteRows_spec (tid : Nat) (existingIds : List Nat) :
    ∀ (rows : List NoteRow) (db : DB),
      (∀ id ∈ noteKeys db, id < db.nextNoteId) →
      (∀ n ∈ existingIds, n ∈ noteKeys db) →
      ∃ db' kept ops,
        processNoteRows tid existingIds db rows = .ok (db', kept, ops) ∧
        (∀ id ∈ noteKeys db', id < db'.nextNoteId) ∧
        db.nextNoteId ≤ db'.nextNoteId ∧
        (∀ n ∈ existingIds, n ∈ noteKeys db') ∧
        (∀ p ∈ db.notes, p.1 ∉ existingIds → p ∈ db'.notes) ∧
        (∀ n old new, Op.updateNote n old new ∈ ops →
          n ∈ existingIds ∧ ∃ row ∈ rows, pyIntOfRaw row.id = some (Int.ofNat n)) ∧
        (ops.filter isInsertNoteOp).length =
          (rows.filter (noteInsertRowB existingIds)).length ∧
        (∀ m ∈ existingIds, (Int.ofNat m ∈ kept ↔
          Int.ofNat m ∈ noteUpdateTargets existingIds rows)) ∧
        (∀ op ∈ ops, isDeleteNoteOp op = false) := by
  intro rows
  induction rows with
  | nil =>
      intro db hlt hsub
      refine ⟨db, [], [], rfl, hlt, le_refl _, hsub, fun p hp _ => hp, ?_, ?_, ?_, ?_⟩
      · intro n old new h
        cases h
      · rfl
      · intro m _
        simp [noteUpdateTargets]
      · intro op h
        cases h
  | cons row rest ih =>
      intro db hlt hsub
      by_cases hbody : pyStrip (orEmpty row.body) = ""
      · obtain ⟨db', kept, ops, hproc, h1, h2, h3, h4, h5, h6, h7, h8⟩ :=
          ih db hlt hsub
        refine ⟨db', kept, ops, ?_, h1, h2, h3, h4, ?_, ?_, ?_, h8⟩
        · simp only [processNoteRows]
          rw [if_pos hbody]
          exact hproc
        · intro n old new h
          obtain ⟨hn, r, hr, hpr⟩ := h5 n old new h
          exact ⟨hn, r, List.mem_cons_of_mem _ hr, hpr⟩
        · rw [List.filter_cons_of_neg (by simp [noteInsertRowB_blank existingIds row hbody])]
          exact h6
        · intro m hm
          rw [noteUpdateTargets_cons_blank existingIds row rest hbody]
          exact h7 m hm
      · cases hpid : pyIntOfRaw row.id with
        | some n =>
            by_cases hcond : n ≠ 0 ∧ n ∈ existingIds.map Int.ofNat
            · obtain ⟨m, hm, hmn⟩ := List.mem_map.mp hcond.2
              subst hmn
              have hkey : m ∈ noteKeys db := hsub m hm
              have hupd := update_note_ok db m
                (optOfBlank (pyStrip (orEmpty row.title)))
                (pyStrip (orEmpty row.body))
                (optOfBlank (pyStrip (orEmpty row.tags))) hkey
              set db1 : DB := { db with notes := db.notes.map (fun p =>
                if p.1 = m then (m, ⟨optOfBlank (pyStrip (orEmpty row.title)),
                  some (pyStrip (orEmpty row.body)),
                  optOfBlank (pyStrip (orEmpty row.tags))⟩) else p) } with hdb1
              have hkeys1 : noteKeys db1 = noteKeys db := map_replace_keys m _ db.notes
              have hkeys2 : noteKeys (link_note_to_trade db1 tid m) = noteKeys db1 := by
                unfold noteKeys
                rw [link_note_to_trade_notes]
              have hnext2 : (link_note_to_trade db1 tid m).nextNoteId = db.nextNoteId :=
                link_note_to_trade_nextNoteId db1 tid m
              obtain ⟨db', kept, ops, hproc, h1, h2, h3, h4, h5, h6, h7, h8⟩ :=
                ih (link_note_to_trade db1 tid m)
                  (by rw [hkeys2, hkeys1, hnext2]; exact hlt)
                  (by rw [hkeys2, hkeys1]; exact hsub)
              refine ⟨db', Int.ofNat m :: kept,
                Op.updateNote m (lookupNote db m)
                    ⟨optOfBlank (pyStrip (orEmpty row.title)),
                     some (pyStrip (orEmpty row.body)),
                     optOfBlank (pyStrip (orEmpty row.tags))⟩ ::
                  Op.linkNote tid m :: ops, ?_, h1, ?_, h3, ?_, ?_, ?_, ?_, ?_⟩
              · simp only [processNoteRows]
                rw [if_neg hbody]
                simp only [hpid]
                rw [if_pos hcond]
                simp only [int_toNat_ofNat, hupd, Bind.bind, Except.bind, hproc]
              · rw [← hnext2]
                exact h2
              · intro p hp hpne
                have hne : p.1 ≠ m := fun h => hpne (h ▸ hm)
                have hp1 : p ∈ db1.notes :=
                  mem_map_replace_of_ne m _ db.notes p hne hp
                have hp2 : p ∈ (link_note_to_trade db1 tid m).notes := by
                  rw [link_note_to_trade_notes]
                  exact hp1
                exact h4 p hp2 hpne
              · intro n' old new h
                rcases List.mem_cons.mp h with heq | h
                · obtain ⟨he1, -, -⟩ := Op.updateNote.inj heq
                  subst he1
                  exact ⟨hm, row, List.mem_cons_self row rest, hpid⟩
                · rcases List.mem_cons.mp h with heq | h
                  · cases heq
                  · obtain ⟨hn, r, hr, hpr⟩ := h5 n' old new h
                    exact ⟨hn, r, List.mem_cons_of_mem _ hr, hpr⟩
              · rw [List.filter_cons_of_neg (by simp [isInsertNoteOp]),
                  List.filter_cons_of_neg (by simp [isInsertNoteOp]),
                  List.filter_cons_of_neg
                    (by simp [noteInsertRowB_update existingIds row (Int.ofNat m) hbody hpid hcond])]
                exact h6
              · intro m' hm'
                rw [noteUpdateTargets_cons_update existingIds row rest (Int.ofNat m)
                  hbody hpid hcond]
                constructor
                · intro hk
                  rcases List.mem_cons.mp hk with heq | hk
                  · exact heq ▸ List.mem_cons_self _ _
                  · exact List.mem_cons_of_mem _ ((h7 m' hm').mp hk)
                · intro ht
                  rcases List.mem_cons.mp ht with heq | ht
                  · exact heq ▸ List.mem_cons_self _ _
                  · exact List.mem_cons_of_mem _ ((h7 m' hm').mpr ht)
              · intro op hop
                rcases List.mem_cons.mp hop with rfl | hop
                · rfl
                · rcases List.mem_cons.mp hop with rfl | hop
                  · rfl
                  · exact h8 op hop
            · -- parsed id that fails the truthiness / membership check: insert
              set recN : NoteRec :=
                ⟨optOfBlank (pyStrip (orEmpty row.title)),
                 some (pyStrip (orEmpty row.body)),
                 optOfBlank (pyStrip (orEmpty row.tags))⟩ with hrecN
              set newId : Nat := db.nextNoteId with hnewId
              have hdb1e : True := trivial
              set db1 : DB := ({ db with notes := db.notes ++ [(newId, recN)], nextNoteId := newId + 1 } : DB) with hdb1
              have hkeys1 : noteKeys db1 = noteKeys db ++ [newId] := by
                unfold noteKeys
                simp [hdb1]
              have hkeys2 : noteKeys (link_note_to_trade db1 tid newId) = noteKeys db1 := by
                unfold noteKeys
                rw [link_note_to_trade_notes]
              have hnext2 : (link_note_to_trade db1 tid newId).nextNoteId = newId + 1 :=
                link_note_to_trade_nextNoteId db1 tid newId
              have hlt1 : ∀ id ∈ noteKeys (link_note_to_trade db1 tid newId),
                  id < (link_note_to_trade db1 tid newId).nextNoteId := by
                rw [hkeys2, hkeys1, hnext2]
                intro id hid
                rcases List.mem_append.mp hid with hid | hid
                · exact Nat.lt_succ_of_lt (hlt id hid)
                · simp at hid
                  omega
              have hsub1 : ∀ n' ∈ existingIds,
                  n' ∈ noteKeys (link_note_to_trade db1 tid newId) := by
                rw [hkeys2, hkeys1]
                intro n' hn'
                exact List.mem_append.mpr (Or.inl (hsub n' hn'))
              obtain ⟨db', kept, ops, hproc, h1, h2, h3, h4, h5, h6, h7, h8⟩ :=
                ih (link_note_to_trade db1 tid newId) hlt1 hsub1
              refine ⟨db', Int.ofNat newId :: kept,
                Op.insertNote newId :: Op.linkNote tid newId :: ops,
                ?_, h1, ?_, h3, ?_, ?_, ?_, ?_, ?_⟩
              · simp only [processNoteRows]
                rw [if_neg hbody]
                simp only [hpid]
                rw [if_neg hcond]
                simp only [add_note, Bind.bind, Except.bind, hproc]
              · rw [hnext2] at h2
                omega
              · intro p hp hpne
                have hp1 : p ∈ db1.notes := by
                  simp only [hdb1]
                  exact List.mem_append.mpr (Or.inl hp)
                have hp2 : p ∈ (link_note_to_trade db1 tid newId).notes := by
                  rw [link_note_to_trade_notes]
                  exact hp1
                exact h4 p hp2 hpne
              · intro n' old new h
                rcases List.mem_cons.mp h with heq | h
                · cases heq
                · rcases List.mem_cons.mp h with heq | h
                  · cases heq
                  · obtain ⟨hn, r, hr, hpr⟩ := h5 n' old new h
                    exact ⟨hn, r, List.mem_cons_of_mem _ hr, hpr⟩
              · rw [List.filter_cons_of_pos (by simp [isInsertNoteOp]),
                  List.filter_cons_of_neg (by simp [isInsertNoteOp]),
                  List.filter_cons_of_pos
                    (by simp [noteInsertRowB_spoof existingIds row n hbody hpid hcond])]
                simp only [List.length_cons]
                omega
              · intro m' hm'
                rw [noteUpdateTargets_cons_spoof existingIds row rest n hbody hpid hcond]
                have hne : Int.ofNat m' ≠ Int.ofNat newId := by
                  have hlt' : m' < newId := hlt m' (hsub m' hm')
                  intro h
                  have := Int.ofNat.inj h
                  omega
                constructor
                · intro hk
                  rcases List.mem_cons.mp hk with heq | hk
                  · exact absurd heq hne
                  · exact (h7 m' hm').mp hk
                · intro ht
                  exact List.mem_cons_of_mem _ ((h7 m' hm').mpr ht)
              · intro op hop
                rcases List.mem_cons.mp hop with rfl | hop
                · rfl
                · rcases List.mem_cons.mp hop with rfl | hop
                  · rfl
                  · exact h8 op hop
        | none =>
            set recN : NoteRec :=
              ⟨optOfBlank (pyStrip (orEmpty row.title)),
               some (pyStrip (orEmpty row.body)),
               optOfBlank (pyStrip (orEmpty row.tags))⟩ with hrecN
            set newId : Nat := db.nextNoteId with hnewId
            have hdb1f : True := trivial
            set db1 : DB := ({ db with notes := db.notes ++ [(newId, recN)], nextNoteId := newId + 1 } : DB) with hdb1
            have hkeys1 : noteKeys db1 = noteKeys db ++ [newId] := by
              unfold noteKeys
              simp [hdb1]
            have hkeys2 : noteKeys (link_note_to_trade db1 tid newId) = noteKeys db1 := by
              unfold noteKeys
              rw [link_note_to_trade_notes]
            have hnext2 : (link_note_to_trade db1 tid newId).nextNoteId = newId + 1 :=
              link_note_to_trade_nextNoteId db1 tid newId
            have hlt1 : ∀ id ∈ noteKeys (link_note_to_trade db1 tid newId),
                id < (link_note_to_trade db1 tid newId).nextNoteId := by
              rw [hkeys2, hkeys1, hnext2]
              intro id hid
              rcases List.mem_append.mp hid with hid | hid
              · exact Nat.lt_succ_of_lt (hlt id hid)
              · simp at hid
                omega
            have hsub1 : ∀ n' ∈ existingIds,
                n' ∈ noteKeys (link_note_to_trade db1 tid newId) := by
              rw [hkeys2, hkeys1]
              intro n' hn'
              exact List.mem_append.mpr (Or.inl (hsub n' hn'))
            obtain ⟨db', kept, ops, hproc, h1, h2, h3, h4, h5, h6, h7, h8⟩ :=
              ih (link_note_to_trade db1 tid newId) hlt1 hsub1
            refine ⟨db', Int.ofNat newId :: kept,
              Op.insertNote newId :: Op.linkNote tid newId :: ops,
              ?_, h1, ?_, h3, ?_, ?_, ?_, ?_, ?_⟩
            · simp only [processNoteRows]
              rw [if_neg hbody]
              simp only [hpid]
              simp only [add_note, Bind.bind, Except.bind, hproc]
            · rw [hnext2] at h2
              omega
            · intro p hp hpne
              have hp1 : p ∈ db1.notes := by
                simp only [hdb1]
                exact List.mem_append.mpr (Or.inl hp)
              have hp2 : p ∈ (link_note_to_trade db1 tid newId).notes := by
                rw [link_note_to_trade_notes]
                exact hp1
              exact h4 p hp2 hpne
            · intro n' old new h
              rcases List.mem_cons.mp h with heq | h
              · cases heq
              · rcases List.mem_cons.mp h with heq | h
                · cases heq
                · obtain ⟨hn, r, hr, hpr⟩ := h5 n' old new h
                  exact ⟨hn, r, List.mem_cons_of_mem _ hr, hpr⟩
            · rw [List.filter_cons_of_pos (by simp [isInsertNoteOp]),
                List.filter_cons_of_neg (by simp [isInsertNoteOp]),
                List.filter_cons_of_pos
                  (by simp [noteInsertRowB_noid existingIds row hbody hpid])]
              simp only [List.length_cons]
              omega
            · intro m' hm'
              rw [noteUpdateTargets_cons_noid existingIds row rest hbody hpid]
              have hne : Int.ofNat m' ≠ Int.ofNat newId := by
                have hlt' : m' < newId := hlt m' (hsub m' hm')
                intro h
                have := Int.ofNat.inj h
                omega
              constructor
              · intro hk
                rcases List.mem_cons.mp hk with heq | hk
                · exact absurd heq hne
                · exact (h7 m' hm').mp hk
              · intro ht
                exact List.mem_cons_of_mem _ ((h7 m' hm').mpr ht)
            · intro op hop
              rcases List.mem_cons.mp hop with rfl | hop
              · rfl
              · rcases List.mem_cons.mp hop with rfl | hop
                · rfl
                · exact h8 op hop

end TradingJournal

namespace TradingJournal

open TradeState Stage

/-- C8: in `replace_trade_notes`, a proposed row is treated as an update
target only when its id parses to a member of the owner's
existing-children id set: every update operation carries such an id
together with a row that parsed to it; every row failing the check (with a
non-blank body) produces exactly one insert; and notes outside the owner's
existing-children set — in particular another owner's children named by a
spoofed id — are never modified or removed. -/
theorem c8_identity_spoofing_guard (db : DB) (tid : Nat) (rows : List NoteRow)
    (hlt : ∀ id ∈ noteKeys db, id < db.nextNoteId) :
    ∃ db' ops, replace_trade_notes db tid rows = .ok (db', ops) ∧
      (∀ n old new, Op.updateNote n old new ∈ ops →
        n ∈ (list_notes_for_trade db tid).map Prod.fst ∧
        ∃ row ∈ rows, pyIntOfRaw row.id = some (Int.ofNat n)) ∧
      (ops.filter isInsertNoteOp).length =
        (rows.filter (noteInsertRowB
          ((list_notes_for_trade db tid).map Prod.fst))).length ∧
      (∀ p ∈ db.notes, p.1 ∉ (list_notes_for_trade db tid).map Prod.fst →
        p ∈ db'.notes) := by
  have hsub : ∀ n ∈ (list_notes_for_trade db tid).map Prod.fst, n ∈ noteKeys db := by
    intro n hn
    obtain ⟨p, hp, rfl⟩ := List.mem_map.mp hn
    exact List.mem_map_of_mem Prod.fst (List.mem_filter.mp hp).1
  obtain ⟨db1, kept, ops1, hproc, h1, h2, h3, h4, h5, h6, h7, h8⟩ :=
    processNoteRows_spec tid ((list_notes_for_trade db tid).map Prod.fst)
      rows db hlt hsub
  obtain ⟨d1, d2, d3, d4, d5, d6⟩ := deleteNotesLoop_spec tid
    (((list_notes_for_trade db tid).map Prod.fst).filter
      (fun nid => Int.ofNat nid ∉ kept)) db1
  rcases hdl : deleteNotesLoop tid db1
      (((list_notes_for_trade db tid).map Prod.fst).filter
        (fun nid => Int.ofNat nid ∉ kept)) with ⟨db2, ops2⟩
  rw [hdl] at d1 d2 d3 d4 d5 d6
  refine ⟨db2, ops1 ++ ops2, ?_, ?_, ?_, ?_⟩
  · unfold replace_trade_notes
    simp only [hproc, Bind.bind, Except.bind, hdl]
  · intro n old new hop
    rcases List.mem_append.mp hop with hop | hop
    · exact h5 n old new hop
    · exact absurd rfl ((d6 _ hop).2 n old new)
  · rw [List.filter_append]
    have hnil : ops2.filter isInsertNoteOp = [] :=
      List.filter_eq_nil_iff.mpr (fun op hop => by simp [(d6 op hop).1])
    rw [hnil, List.append_nil]
    exact h6
  · intro p hp hpne
    have hp1 : p ∈ db1.notes := h4 p hp hpne
    refine d5 p hp1 ?_
    intro hmem
    exact hpne (List.mem_filter.mp hmem).1

/-- C8 (witness): editing trade 1 (whose only note is id 1) with a row
that spoofs trade 9's note id 2 — the run succeeds, issues no update for
any id outside trade 1's existing set, inserts exactly one new note, and
trade 9's note row survives untouched. -/
theorem c8_identity_spoofing_guard_witness :
    ∃ db' ops, replace_trade_notes exampleTwoOwnerDB 1 exampleSpoofRows =
        .ok (db', ops) ∧
      (∀ n old new, Op.updateNote n old new ∈ ops →
        n ∈ (list_notes_for_trade exampleTwoOwnerDB 1).map Prod.fst ∧
        ∃ row ∈ exampleSpoofRows, pyIntOfRaw row.id = some (Int.ofNat n)) ∧
      (ops.filter isInsertNoteOp).length =
        (exampleSpoofRows.filter (noteInsertRowB
          ((list_notes_for_trade exampleTwoOwnerDB 1).map Prod.fst))).length ∧
      (∀ p ∈ exampleTwoOwnerDB.notes,
        p.1 ∉ (list_notes_for_trade exampleTwoOwnerDB 1).map Prod.fst →
        p ∈ db'.notes) :=
  c8_identity_spoofing_guard exampleTwoOwnerDB 1 exampleSpoofRows (by decide)

/-- C3 (amended): a chart absent from the proposed set is deleted iff its
reference count over `trade_charts` and `analysis_charts` alone is zero —
other charts survive the garbage collection untouched — while a note
absent from the kept set is unlinked and deleted unconditionally, whatever
junction links to other owners remain. -/
theorem c3_gc_characterization :
    (∀ (db : DB) (cid : Nat),
      (∀ p ∈ db.charts, p.1 ≠ cid → p ∈ (delete_chart_if_unused db cid).charts) ∧
      (cid ∈ (delete_chart_if_unused db cid).charts.map Prod.fst ↔
        (cid ∈ db.charts.map Prod.fst ∧ chartRefCount db cid ≠ 0))) ∧
    (∀ (db : DB) (tid : Nat) (rows : List NoteRow) (nid : Nat),
      (∀ id ∈ noteKeys db, id < db.nextNoteId) →
      nid ∈ (list_notes_for_trade db tid).map Prod.fst →
      Int.ofNat nid ∉ noteUpdateTargets
        ((list_notes_for_trade db tid).map Prod.fst) rows →
      ∃ db' ops, replace_trade_notes db tid rows = .ok (db', ops) ∧
        nid ∉ noteKeys db' ∧ (∀ t, (t, nid) ∉ db'.tradeNotes)) := by
  constructor
  · intro db cid
    by_cases h : chartRefCount db cid = 0
    · constructor
      · intro p hp hne
        unfold delete_chart_if_unused
        rw [if_pos h]
        exact List.mem_filter.mpr ⟨hp, by simpa using hne⟩
      · unfold delete_chart_if_unused
        rw [if_pos h]
        constructor
        · intro hmem
          obtain ⟨p, hp, hp1⟩ := List.mem_map.mp hmem
          have := (List.mem_filter.mp hp).2
          rw [hp1] at this
          simp at this
        · rintro ⟨-, hcnt⟩
          exact absurd h hcnt
    · constructor
      · intro p hp _
        unfold delete_chart_if_unused
        rw [if_neg h]
        exact hp
      · unfold delete_chart_if_unused
        rw [if_neg h]
        exact ⟨fun hm => ⟨hm, h⟩, fun hm => hm.1⟩
  · intro db tid rows nid hlt hnid hntarget
    have hsub : ∀ n ∈ (list_notes_for_trade db tid).map Prod.fst,
        n ∈ noteKeys db := by
      intro n hn
      obtain ⟨p, hp, rfl⟩ := List.mem_map.mp hn
      exact List.mem_map_of_mem Prod.fst (List.mem_filter.mp hp).1
    obtain ⟨db1, kept, ops1, hproc, h1, h2, h3, h4, h5, h6, h7, h8⟩ :=
      processNoteRows_spec tid ((list_notes_for_trade db tid).map Prod.fst)
        rows db hlt hsub
    obtain ⟨d1, d2, d3, d4, d5, d6⟩ := deleteNotesLoop_spec tid
      (((list_notes_for_trade db tid).map Prod.fst).filter
        (fun nid => Int.ofNat nid ∉ kept)) db1
    rcases hdl : deleteNotesLoop tid db1
        (((list_notes_for_trade db tid).map Prod.fst).filter
          (fun nid => Int.ofNat nid ∉ kept)) with ⟨db2, ops2⟩
    rw [hdl] at d1 d2 d3 d4 d5 d6
    have hkeptnot : Int.ofNat nid ∉ kept := fun hk =>
      hntarget ((h7 nid hnid).mp hk)
    have hintd : nid ∈ ((list_notes_for_trade db tid).map Prod.fst).filter
        (fun nid => Int.ofNat nid ∉ kept) :=
      List.mem_filter.mpr ⟨hnid, by simpa using hkeptnot⟩
    refine ⟨db2, ops1 ++ ops2, ?_, ?_, ?_⟩
    · unfold replace_trade_notes
      simp only [hproc, Bind.bind, Except.bind, hdl]
    · exact d3 nid hintd
    · intro t
      exact d4 nid hintd t

/-- C3 (amended, witness): concretely, deleting chart 1 of
`exampleChartDB` is blocked while its trade link remains, and reconciling
trade 1 of `exampleSharedNoteDB` with an empty proposed set removes note 1
and its trade link. -/
theorem c3_gc_characterization_witness :
    (1 ∈ (delete_chart_if_unused exampleChartDB 1).charts.map Prod.fst ↔
      (1 ∈ exampleChartDB.charts.map Prod.fst ∧
        chartRefCount exampleChartDB 1 ≠ 0)) ∧
    ∃ db' ops, replace_trade_notes exampleSharedNoteDB 1 [] = .ok (db', ops) ∧
      1 ∉ noteKeys db' ∧ (∀ t, (t, 1) ∉ db'.tradeNotes) :=
  ⟨(c3_gc_characterization.1 exampleChartDB 1).2,
    c3_gc_characterization.2 exampleSharedNoteDB 1 [] 1 (by decide) (by decide)
      (by decide)⟩

end TradingJournal

namespace TradingJournal

open TradeState Stage

/-- Helper: splitting a comma-free character list yields one piece. -/
theorem splitCommaAux_no_comma :
    ∀ (cs : List Char) (acc : List Char), ',' ∉ cs →
      splitCommaAux cs acc = [acc.reverse ++ cs] := by
  intro cs
  induction cs with
  | nil => intro acc _; simp [splitCommaAux]
  | cons c rest ih =>
      intro acc h
      simp only [List.mem_cons] at h
      push_neg at h
      simp only [splitCommaAux]
      rw [if_neg (fun hc => h.1 hc.symm), ih (c :: acc) h.2]
      simp

/-- Helper: splitting at the first comma separates the comma-free head. -/
theorem splitCommaAux_append_comma :
    ∀ (a : List Char) (acc b : List Char), ',' ∉ a →
      splitCommaAux (a ++ ',' :: b) acc =
        (acc.reverse ++ a) :: splitCommaAux b [] := by
  intro a
  induction a with
  | nil =>
      intro acc b _
      simp only [List.nil_append, splitCommaAux, if_pos rfl]
      simp
  | cons c a' ih =>
      intro acc b h
      simp only [List.mem_cons] at h
      push_neg at h
      simp only [List.cons_append, splitCommaAux]
      rw [if_neg (fun hc => h.1 hc.symm)]
      have hred : (a'.append (',' :: b)) = a' ++ ',' :: b := rfl
      rw [hred, ih (c :: acc) b h.2]
      simp

/-- Helper: a non-empty accumulator only prepends to the first piece. -/
theorem splitCommaAux_acc_shift :
    ∀ (cs : List Char) (acc : List Char),
      splitCommaAux cs acc =
        (acc.reverse ++ (splitCommaAux cs []).headI) ::
          (splitCommaAux cs []).tail := by
  intro cs
  induction cs with
  | nil => intro acc; simp [splitCommaAux]
  | cons c rest ih =>
      intro acc
      by_cases hc : c = ','
      · subst hc
        simp only [splitCommaAux, if_pos rfl]
        simp
      · simp only [splitCommaAux, if_neg hc]
        rw [ih (c :: acc), ih [c]]
        simp

/-- Helper: a comma-free string splits into itself. -/
theorem pySplitComma_no_comma (s : String) (h : ',' ∉ s.data) :
    pySplitComma s = [s] := by
  unfold pySplitComma
  rw [splitCommaAux_no_comma s.data [] h]
  rfl

/-- Helper: re-attaching `data` to `String.mk` is the identity on lists. -/
theorem map_mk_data (L : List String) :
    L.map (fun t => (⟨t.data⟩ : String)) = L :=
  (List.map_congr_left (fun _ _ => rfl)).trans (List.map_id L)

/-- Helper: splitting a `", "`-join of comma-free strings recovers the
pieces, the later ones carrying the separator's space. -/
theorem pySplitComma_join :
    ∀ (rest : List String) (x : String), ',' ∉ x.data →
      (∀ t ∈ rest, ',' ∉ t.data) →
      pySplitComma (joinCommaSpace (x :: rest)) =
        x :: rest.map (fun t => " " ++ t) := by
  intro rest
  induction rest with
  | nil =>
      intro x hx _
      exact pySplitComma_no_comma x hx
  | cons y rest' ih =>
      intro x hx hrest
      have hy : ',' ∉ y.data := hrest y (List.mem_cons_self y rest')
      have hrest' : ∀ t ∈ rest', ',' ∉ t.data :=
        fun t ht => hrest t (List.mem_cons_of_mem _ ht)
      have hJ := ih y hy hrest'
      have hJdata : splitCommaAux (joinCommaSpace (y :: rest')).data [] =
          (y :: rest'.map (fun t => " " ++ t)).map String.data := by
        have h1 := congrArg (List.map String.data) hJ
        rw [show pySplitComma (joinCommaSpace (y :: rest')) =
            (splitCommaAux (joinCommaSpace (y :: rest')).data []).map
              (fun cs => (⟨cs⟩ : String)) from rfl] at h1
        rw [List.map_map] at h1
        have h2 : (String.data ∘ fun cs : List Char => (⟨cs⟩ : String)) = id := rfl
        rw [h2, List.map_id] at h1
        exact h1
      have hdata : (joinCommaSpace (x :: y :: rest')).data =
          x.data ++ ',' :: (' ' :: (joinCommaSpace (y :: rest')).data) := by
        show (x ++ ", " ++ joinCommaSpace (y :: rest')).data = _
        rw [String.data_append, String.data_append]
        simp
      unfold pySplitComma
      rw [hdata, splitCommaAux_append_comma x.data [] _ hx]
      have hsp : splitCommaAux (' ' :: (joinCommaSpace (y :: rest')).data) [] =
          (" " ++ y).data ::
            (rest'.map (fun t => " " ++ t)).map String.data := by
        show (if (' ' = ',') then _ else
          splitCommaAux (joinCommaSpace (y :: rest')).data [' ']) = _
        rw [if_neg (by decide), splitCommaAux_acc_shift _ [' '], hJdata]
        simp [String.data_append]
      rw [hsp]
      simp only [List.map_cons, List.nil_append, List.map_map]
      rfl

/-- Helper: membership survives `dropWhile`. -/
theorem mem_of_mem_dropWhile {c : Char} {p : Char → Bool} :
    ∀ l : List Char, c ∈ l.dropWhile p → c ∈ l := by
  intro l
  induction l with
  | nil => intro h; exact h
  | cons a rest ih =>
      intro h
      rw [List.dropWhile_cons] at h
      by_cases hp : p a
      · rw [if_pos hp] at h
        exact List.mem_cons_of_mem _ (ih h)
      · rw [if_neg hp] at h
        exact h

/-- Helper: stripping introduces no comma. -/
theorem pyStrip_no_comma (s : String) (h : ',' ∉ s.data) :
    ',' ∉ (pyStrip s).data := by
  intro hc
  apply h
  have h1 : ',' ∈ ((s.data.dropWhile Char.isWhitespace).reverse.dropWhile
      Char.isWhitespace).reverse := hc
  rw [List.mem_reverse] at h1
  have h2 := mem_of_mem_dropWhile _ h1
  rw [List.mem_reverse] at h2
  exact mem_of_mem_dropWhile _ h2

/-- Helper: a prepended space is removed by the strip. -/
theorem pyStrip_space_prepend (t : String) : pyStrip (" " ++ t) = pyStrip t := by
  unfold pyStrip
  congr 1

/-- Helper: Python `strip` is idempotent. -/
theorem pyStrip_idem (s : String) : pyStrip (pyStrip s) = pyStrip s := by
  have e : ∀ L : List Char, (L.reverse.dropWhile Char.isWhitespace).reverse =
      List.rdropWhile Char.isWhitespace L := fun L => rfl
  have hdw : List.dropWhile Char.isWhitespace
      (List.rdropWhile Char.isWhitespace
        (s.data.dropWhile Char.isWhitespace)) =
      List.rdropWhile Char.isWhitespace (s.data.dropWhile Char.isWhitespace) := by
    cases hX : List.rdropWhile Char.isWhitespace
        (s.data.dropWhile Char.isWhitespace) with
    | nil => simp
    | cons a rest =>
        obtain ⟨tail, htail⟩ := List.rdropWhile_prefix (p := Char.isWhitespace)
          (l := s.data.dropWhile Char.isWhitespace)
        rw [hX] at htail
        have h4 : (s.data.dropWhile Char.isWhitespace).head? = some a := by
          rw [← htail]
          simp
        have h5 := List.head?_dropWhile_not Char.isWhitespace s.data
        simp only [h4] at h5
        rw [List.dropWhile_cons_of_neg (by simp [h5])]
  unfold pyStrip
  congr 1
  show (((((s.data.dropWhile Char.isWhitespace).reverse.dropWhile
      Char.isWhitespace).reverse).dropWhile Char.isWhitespace).reverse.dropWhile
      Char.isWhitespace).reverse =
    ((s.data.dropWhile Char.isWhitespace).reverse.dropWhile Char.isWhitespace).reverse
  rw [e (s.data.dropWhile Char.isWhitespace), hdw,
    e (List.rdropWhile Char.isWhitespace (s.data.dropWhile Char.isWhitespace))]
  exact List.rdropWhile_idempotent _ _


/-- Helper: every member of the normalised tag list is stripped, non-blank,
and (when the inputs are comma-free) comma-free. -/
theorem mem_normalizedTagList (xs : List (Option String))
    (hnc : ∀ t ∈ xs, ∀ s, t = some s → ',' ∉ s.data) :
    ∀ u ∈ normalizedTagList xs, pyStrip u = u ∧ u ≠ "" ∧ ',' ∉ u.data := by
  intro u hu
  rcases List.mem_filterMap.mp hu with ⟨t?, ht?, hf⟩
  cases t? with
  | none => exact Option.noConfusion hf
  | some t =>
      have hfb : optOfBlank (pyStrip t) = some u := hf
      unfold optOfBlank at hfb
      by_cases hz : pyStrip t = ""
      · rw [if_pos hz] at hfb
        exact Option.noConfusion hfb
      · rw [if_neg hz] at hfb
        injection hfb with hfb
        subst hfb
        exact ⟨pyStrip_idem t, hz, pyStrip_no_comma t (hnc _ ht? t rfl)⟩

/-- C5: amended round-trip law. For a tag list whose entries contain no
comma, serialising with `serialize_tags` and reading back with
`split_tags` returns exactly the entry-wise normalised list (stripped,
blanks and `None` dropped, order and duplicates preserved); an empty
normalised list serialises to `None`; and the serialised form is never the
empty-but-present string. -/
theorem c5_tag_round_trip (xs : List (Option String))
    (hnc : ∀ t ∈ xs, ∀ s, t = some s → ',' ∉ s.data) :
    tagsRoundTrip xs = normalizedTagList xs ∧
      (normalizedTagList xs = [] → serialize_tags (.list xs) = none) ∧
      serialize_tags (.list xs) ≠ some "" := by
  have hmem := mem_normalizedTagList xs hnc
  have hser : serialize_tags (.list xs) =
      optOfBlank (joinCommaSpace (normalizedTagList xs)) := rfl
  cases hN : normalizedTagList xs with
  | nil =>
      have hser0 : serialize_tags (.list xs) = none := by
        rw [hser, hN]
        rfl
      refine ⟨?_, fun _ => hser0, ?_⟩
      · unfold tagsRoundTrip
        rw [hser0]
        rfl
      · rw [hser0]
        exact fun h => Option.noConfusion h
  | cons x rest =>
      have hmemC : ∀ u ∈ x :: rest, pyStrip u = u ∧ u ≠ "" ∧ ',' ∉ u.data :=
        fun u hu => hmem u (by rw [hN]; exact hu)
      have hxne : x ≠ "" := (hmemC x (List.mem_cons_self x rest)).2.1
      have hxnc : ',' ∉ x.data := (hmemC x (List.mem_cons_self x rest)).2.2
      have hrestnc : ∀ t ∈ rest, ',' ∉ t.data :=
        fun t ht => (hmemC t (List.mem_cons_of_mem _ ht)).2.2
      have hjoin_ne : joinCommaSpace (x :: rest) ≠ "" := by
        cases rest with
        | nil => exact hxne
        | cons y rest' =>
            intro h
            have hd := congrArg String.data h
            rw [show joinCommaSpace (x :: y :: rest') =
                x ++ ", " ++ joinCommaSpace (y :: rest') from rfl] at hd
            rw [String.data_append, String.data_append] at hd
            rcases List.append_eq_nil.mp hd with ⟨hd1, -⟩
            rcases List.append_eq_nil.mp hd1 with ⟨-, hd2⟩
            exact absurd hd2 (by decide)
      have hserS : serialize_tags (.list xs) =
          some (joinCommaSpace (x :: rest)) := by
        rw [hser, hN]
        unfold optOfBlank
        rw [if_neg hjoin_ne]
      refine ⟨?_, fun h => absurd h (List.cons_ne_nil x rest), ?_⟩
      · unfold tagsRoundTrip
        rw [hserS]
        simp only [persistedTags, split_tags]
        rw [pySplitComma_join rest x hxnc hrestnc, List.map_cons, List.map_map]
        have hmap : rest.map (pyStrip ∘ fun t => " " ++ t) = rest := by
          have he : ∀ t ∈ rest, (pyStrip ∘ fun t => " " ++ t) t = id t := by
            intro t ht
            show pyStrip (" " ++ t) = t
            rw [pyStrip_space_prepend, (hmemC t (List.mem_cons_of_mem _ ht)).1]
          rw [List.map_congr_left he, List.map_id]
        rw [hmap, (hmemC x (List.mem_cons_self x rest)).1]
        refine List.filter_eq_self.mpr ?_
        intro a ha
        exact decide_eq_true (hmemC a ha).2.1
      · rw [hserS]
        intro h
        injection h with h
        exact hjoin_ne h

/-- Witness for C5 at the concrete list `[some "a", some "b", some "a"]`:
the round trip keeps the duplicate and the serialised form is non-blank. -/
theorem c5_tag_round_trip_witness :
    tagsRoundTrip [some "a", some "b", some "a"] =
        normalizedTagList [some "a", some "b", some "a"] ∧
      (normalizedTagList [some "a", some "b", some "a"] = [] →
        serialize_tags (TagsVal.list [some "a", some "b", some "a"]) = none) ∧
      serialize_tags (TagsVal.list [some "a", some "b", some "a"]) ≠ some "" :=
  c5_tag_round_trip [some "a", some "b", some "a"] (by
    intro t ht s hs
    subst hs
    simp only [List.mem_cons, List.not_mem_nil, or_false,
      Option.some.injEq] at ht
    rcases ht with h | h | h <;> (subst h; decide))

end TradingJournal
